import Mathlib

/-!
Verification development for the cc-profiler session runtime.

Shallow embedding of the core components:
* `src/pty/interactionTracker.ts` — the interaction-and-turn state machine
  (`InteractionTracker`), embedded as pure state-passing functions together
  with an explicit event-trace semantics.  Node timers (`setTimeout` /
  `clearTimeout`) are modelled as absolute deadlines stored on the active
  interaction; a `timers` trace event models the event loop running every
  due callback (a cleared timer is removed and therefore never fires, which
  matches Node's `clearTimeout` guarantee for callbacks not yet started).
* `src/session/markers.ts` — marker-record construction (`appendMarker`),
  with the SHA-256 hex digest abstracted as a function parameter.
* `src/session/jsonlTracker.ts` — the no-read selection policy
  (`pickLargestCandidate`).
* `src/session/jsonlCorrelate.ts` — the external-log correlator loop; JSON
  parsing and the field extractors (`extractEpochMs`, `extractRole`,
  `extractToolNames`, `extractTokenUsage`) are abstracted into pre-extracted
  record fields.
* `src/session/runSession.ts` — the part of `finalize` that assembles the
  `jsonl` field of the written `SessionData`.

Machine numbers (JS `number` time values) are modelled as `Int`; byte
counts as `Nat`.
-/

namespace CcProfiler


/-- `TurnDetectionMode` from `src/session/schema.ts`: `"enter" | "hotkey"`. -/
inductive TurnDetectionMode
  | enter
  | hotkey
  deriving DecidableEq, Repr

/-- `Interaction["kind"]` from `src/session/schema.ts`. -/
inductive InteractionKind
  | keystroke
  | turn
  deriving DecidableEq, Repr

/-- `Interaction["endReason"]` from `src/session/schema.ts`. -/
inductive EndReason
  | burstIdle
  | timeout
  | sessionEnd
  | overlap
  deriving DecidableEq, Repr

/-- `TurnEvent` from `src/session/schema.ts`. -/
structure TurnEvent where
  index : Nat
  tMs : Int
  source : TurnDetectionMode
  deriving DecidableEq, Repr

/-- `Interaction` from `src/session/schema.ts`; optional fields become `Option`. -/
structure Interaction where
  id : Nat
  kind : InteractionKind
  t0Ms : Int
  t1Ms : Option Int
  t2Ms : Option Int
  inputBytes : Nat
  outputBytes : Nat
  turnIndex : Option Nat
  endReason : EndReason
  deriving DecidableEq, Repr

/-- `ActiveInteraction` from `src/pty/interactionTracker.ts`.  The two
`NodeJS.Timeout` handles are modelled as the absolute times at which the
scheduled callback would run (`none` = no pending timer). -/
structure ActiveInteraction where
  id : Nat
  kind : InteractionKind
  t0Ms : Int
  firstOutputAtMs : Option Int := none
  lastOutputAtMs : Option Int := none
  inputBytes : Nat
  outputBytes : Nat
  turnIndex : Option Nat := none
  idleTimer : Option Int := none
  noOutputTimeout : Option Int := none
  deriving DecidableEq, Repr

/-- The configuration slice of `InteractionTrackerOptions` (the callbacks
`onTurn` / `onInteraction` are modelled by the emission lists returned from
each operation, in invocation order). -/
structure TrackerOptions where
  burstIdleMs : Int
  interactionTimeoutMs : Int
  turnDetection : TurnDetectionMode
  deriving DecidableEq, Repr

/-- The mutable fields of class `InteractionTracker`. -/
structure TrackerState where
  nextId : Nat := 1
  turnIndex : Nat := 0
  activeKeystroke : Option ActiveInteraction := none
  activeTurn : Option ActiveInteraction := none
  deriving DecidableEq, Repr

/-- A callback invocation: `onTurn` or `onInteraction`. -/
inductive Emit
  | turn (t : TurnEvent)
  | interaction (i : Interaction)
  deriving DecidableEq, Repr

/-- `bufferContainsEnter` from `src/pty/interactionTracker.ts`:
`str.includes("\n") || str.includes("\r")` (for a single-character needle,
`String.prototype.includes` is character containment; stated over the
character list of the string so it evaluates by kernel reduction). -/
def bufferContainsEnter (str : String) : Bool :=
  str.data.contains '\n' || str.data.contains '\r'

/-- The `Interaction` value built inside `InteractionTracker.finalize`. -/
def finalizeRecord (it : ActiveInteraction) (reason : EndReason) : Interaction :=
  { id := it.id
    kind := it.kind
    t0Ms := it.t0Ms
    t1Ms := match it.firstOutputAtMs with
      | none => none
      | some f => some (f - it.t0Ms)
    t2Ms := match it.lastOutputAtMs with
      | none => none
      | some l => some (l - it.t0Ms)
    inputBytes := it.inputBytes
    outputBytes := it.outputBytes
    turnIndex := it.turnIndex
    endReason := reason }

/-- The slot-clearing part of `InteractionTracker.finalize`: drop an active
reference when it points at the interaction being finalized. -/
def clearSlots (s : TrackerState) (itId : Nat) : TrackerState :=
  { s with
    activeKeystroke := match s.activeKeystroke with
      | some k => if k.id = itId then none else some k
      | none => none
    activeTurn := match s.activeTurn with
      | some a => if a.id = itId then none else some a
      | none => none }

/-- `InteractionTracker.finalize`: cancel timers (they die with the record),
clear matching active slots, then invoke `onInteraction`. -/
def finalize (s : TrackerState) (it : ActiveInteraction) (reason : EndReason) :
    TrackerState × List Emit :=
  (clearSlots s it.id, [Emit.interaction (finalizeRecord it reason)])

/-- `InteractionTracker.startInteraction`: allocate the next id and schedule the
no-output timer `interactionTimeoutMs` after `t0Ms`. -/
def startInteraction (o : TrackerOptions) (s : TrackerState) (kind : InteractionKind)
    (t0Ms : Int) (turnIndex : Option Nat) : TrackerState × ActiveInteraction :=
  let it : ActiveInteraction :=
    { id := s.nextId
      kind := kind
      t0Ms := t0Ms
      inputBytes := 0
      outputBytes := 0
      turnIndex := turnIndex
      noOutputTimeout := some (t0Ms + o.interactionTimeoutMs) }
  ({ s with nextId := s.nextId + 1 }, it)

/-- `InteractionTracker.beginTurn`: bump the counter, emit the `TurnEvent`,
finalize a still-active turn interaction with `overlap`, then start the new
turn interaction. -/
def beginTurn (o : TrackerOptions) (s : TrackerState) (source : TurnDetectionMode)
    (now : Int) : TrackerState × List Emit :=
  let s1 : TrackerState := { s with turnIndex := s.turnIndex + 1 }
  let turnEv : Emit := Emit.turn { index := s1.turnIndex, tMs := now, source := source }
  let p : TrackerState × List Emit :=
    match s1.activeTurn with
    | some it =>
        let q := finalize s1 it .overlap
        ({ q.1 with activeTurn := none }, q.2)
    | none => (s1, [])
  let r := startInteraction o p.1 .turn now (some s1.turnIndex)
  ({ r.1 with activeTurn := some r.2 }, turnEv :: p.2)

/-- First statement of `handleInput`: `if (!this.activeKeystroke)
this.activeKeystroke = this.startInteraction("keystroke", now)`. -/
def ensureKeystroke (o : TrackerOptions) (s : TrackerState) (now : Int) : TrackerState :=
  match s.activeKeystroke with
  | some _ => s
  | none =>
      let r := startInteraction o s .keystroke now none
      { r.1 with activeKeystroke := some r.2 }

/-- `this.activeKeystroke.inputBytes += byteLen`. -/
def addKeystrokeBytes (s : TrackerState) (byteLen : Nat) : TrackerState :=
  { s with activeKeystroke :=
      s.activeKeystroke.map fun k => { k with inputBytes := k.inputBytes + byteLen } }

/-- `this.activeTurn.inputBytes += byteLen` (a no-op when no turn is active). -/
def addTurnBytes (s : TrackerState) (byteLen : Nat) : TrackerState :=
  { s with activeTurn :=
      s.activeTurn.map fun a => { a with inputBytes := a.inputBytes + byteLen } }

/-- `InteractionTracker.handleInput`. -/
def handleInput (o : TrackerOptions) (s : TrackerState) (data : String) (byteLen : Nat)
    (now : Int) : TrackerState × List Emit :=
  let s := addKeystrokeBytes (ensureKeystroke o s now) byteLen
  if o.turnDetection = .enter ∧ bufferContainsEnter data = true then
    let r := beginTurn o s .enter now
    (addTurnBytes r.1 byteLen, r.2)
  else
    (addTurnBytes s byteLen, [])

/-- `InteractionTracker.observeOutput`: record first/last output times, cancel
the no-output timer on first output, and (re)schedule the idle timer. -/
def observeOutput (o : TrackerOptions) (it : ActiveInteraction) (nowMs : Int)
    (bytes : Nat) : ActiveInteraction :=
  let it :=
    if it.firstOutputAtMs = none then
      { it with firstOutputAtMs := some nowMs, noOutputTimeout := none }
    else it
  { it with
    lastOutputAtMs := some nowMs
    outputBytes := it.outputBytes + bytes
    idleTimer := some (nowMs + o.burstIdleMs) }

/-- `InteractionTracker.handleOutput`. -/
def handleOutput (o : TrackerOptions) (s : TrackerState) (byteLen : Nat)
    (now : Int) : TrackerState × List Emit :=
  let s := { s with activeKeystroke :=
    s.activeKeystroke.map fun k => observeOutput o k now byteLen }
  let s := { s with activeTurn :=
    s.activeTurn.map fun a => observeOutput o a now byteLen }
  (s, [])

/-- `InteractionTracker.endSession`. -/
def endSession (s : TrackerState) : TrackerState × List Emit :=
  let p :=
    match s.activeKeystroke with
    | some k => finalize s k .sessionEnd
    | none => (s, [])
  let q :=
    match p.1.activeTurn with
    | some a => finalize p.1 a .sessionEnd
    | none => (p.1, [])
  ({ q.1 with activeKeystroke := none, activeTurn := none }, p.2 ++ q.2)

/-- `InteractionTracker.markTurn`. -/
def markTurn (o : TrackerOptions) (s : TrackerState) (source : TurnDetectionMode)
    (now : Int) : TrackerState × List Emit :=
  beginTurn o s source now

/-- A pending timer is due once the event loop reaches its deadline. -/
def timerDue (timer : Option Int) (now : Int) : Bool :=
  match timer with
  | some d => decide (d ≤ now)
  | none => false

/-- Run the due timer callbacks of one active interaction.  The no-output
callback body is `if (it.firstOutputAtMs == null) finalize(it, "timeout")`;
the idle callback body is `finalize(it, "burstIdle")`.  Returns the reason to
finalize with, if any. -/
def fireActive (it : ActiveInteraction) (now : Int) :
    Option EndReason × ActiveInteraction :=
  if timerDue it.noOutputTimeout now then
    if it.firstOutputAtMs = none then (some .timeout, it)
    else (none, { it with noOutputTimeout := none })
  else if timerDue it.idleTimer now then (some .burstIdle, it)
  else (none, it)

/-- Deliver the due timer callbacks of the keystroke slot. -/
def fireKeystrokeSlot (s : TrackerState) (now : Int) : TrackerState × List Emit :=
  match s.activeKeystroke with
  | none => (s, [])
  | some k =>
      match fireActive k now with
      | (some reason, k') => finalize s k' reason
      | (none, k') => ({ s with activeKeystroke := some k' }, [])

/-- Deliver the due timer callbacks of the turn slot. -/
def fireTurnSlot (s : TrackerState) (now : Int) : TrackerState × List Emit :=
  match s.activeTurn with
  | none => (s, [])
  | some a =>
      match fireActive a now with
      | (some reason, a') => finalize s a' reason
      | (none, a') => ({ s with activeTurn := some a' }, [])

/-- The event loop delivering every due timer callback at time `now`. -/
def fireTimers (s : TrackerState) (now : Int) : TrackerState × List Emit :=
  let p := fireKeystrokeSlot s now
  let q := fireTurnSlot p.1 now
  (q.1, p.2 ++ q.2)

/-- An externally-observable tracker stimulus.  Times are the values the
`nowMs` clock returns when the corresponding handler runs. -/
inductive Ev
  | input (data : String) (byteLen : Nat) (now : Int)
  | output (byteLen : Nat) (now : Int)
  | mark (source : TurnDetectionMode) (now : Int)
  | timers (now : Int)
  | endSession
  deriving DecidableEq, Repr

/-- Dispatch one event to the tracker. -/
def step (o : TrackerOptions) (s : TrackerState) : Ev → TrackerState × List Emit
  | .input d b n => handleInput o s d b n
  | .output b n => handleOutput o s b n
  | .mark src n => markTurn o s src n
  | .timers n => fireTimers s n
  | .endSession => endSession s

/-- Run a trace from a given state, collecting emissions in invocation order. -/
def runFrom (o : TrackerOptions) (s : TrackerState) : List Ev → TrackerState × List Emit
  | [] => (s, [])
  | e :: rest =>
      let p := step o s e
      let q := runFrom o p.1 rest
      (q.1, p.2 ++ q.2)

/-- Constructor state of `InteractionTracker`: `nextId = 1`, `turnIndex = 0`,
no active interactions. -/
def initState : TrackerState := {}

/-- Run a trace from the freshly constructed tracker. -/
def run (o : TrackerOptions) (tr : List Ev) : TrackerState × List Emit :=
  runFrom o initState tr

/-- All callback invocations of a run. -/
def runEmits (o : TrackerOptions) (tr : List Ev) : List Emit :=
  (run o tr).2

/-- The privacy-relevant observation of an event: byte length, presence of a
line terminator in the input bytes, and the clock reading.  The raw input
bytes are erased. -/
inductive EvObs
  | input (hasEnter : Bool) (byteLen : Nat) (now : Int)
  | output (byteLen : Nat) (now : Int)
  | mark (source : TurnDetectionMode) (now : Int)
  | timers (now : Int)
  | endSession
  deriving DecidableEq, Repr

/-- Project an event to its privacy-relevant observation. -/
def evObs : Ev → EvObs
  | .input d b n => .input (bufferContainsEnter d) b n
  | .output b n => .output b n
  | .mark src n => .mark src n
  | .timers n => .timers n
  | .endSession => .endSession

/-- Tracker options used for concrete witnesses: the CLI defaults
(`burst-idle-ms 30`, `interaction-timeout-ms 2000`, turn detection `enter`). -/
def defaultOpts : TrackerOptions :=
  { burstIdleMs := 30, interactionTimeoutMs := 2000, turnDetection := .enter }

/-- Witness trace: 6 input bytes spelling `SECRET`, 6 output bytes, idle. -/
def trSecret : List Ev :=
  [.input "SECRET" 6 0, .output 6 5, .timers 36, .endSession]

/-- Witness trace: same byte lengths, terminator flags and times; different bytes. -/
def trMasked : List Ev :=
  [.input "XXXXXX" 6 0, .output 6 5, .timers 36, .endSession]

/-- A still-active prior turn interaction, for the C4 witness. -/
def priorTurnIt : ActiveInteraction :=
  { id := 2, kind := .turn, t0Ms := 0, inputBytes := 1, outputBytes := 0,
    turnIndex := some 1, noOutputTimeout := some 2000 }

/-- A tracker state with an active prior turn interaction, for the C4 witness. -/
def statePriorTurn : TrackerState :=
  { nextId := 3, turnIndex := 1, activeKeystroke := none, activeTurn := some priorTurnIt }

/-- The `timeout`-finalized keystroke record of the C5 witness trace. -/
def timeoutRec : Interaction :=
  { id := 1, kind := .keystroke, t0Ms := 0, t1Ms := none, t2Ms := none,
    inputBytes := 1, outputBytes := 0, turnIndex := none, endReason := .timeout }

/-- The emitted `TurnEvent.index` values of an emission list, in order. -/
def turnIndices (es : List Emit) : List Nat :=
  es.filterMap fun e =>
    match e with
    | .turn t => some t.index
    | .interaction _ => none

/-- The clock reading an event delivers to the tracker (`endSession` reads no
clock). -/
def evTime : Ev → Option Int
  | .input _ _ n => some n
  | .output _ n => some n
  | .mark _ n => some n
  | .timers n => some n
  | .endSession => none

/-- The clock lower bound after an event. -/
def newBound (t : Int) (e : Ev) : Int :=
  (evTime e).getD t

/-- The clock readings of a trace are at least `t` and non-decreasing. -/
def timesMono : Int → List Ev → Bool
  | _, [] => true
  | t, e :: rest =>
      match evTime e with
      | some n => decide (t ≤ n) && timesMono n rest
      | none => timesMono t rest

/-- An output event delivers at least one byte. -/
def evOutputPositive : Ev → Bool
  | .output b _ => decide (0 < b)
  | _ => true

/-- Every output event of the trace delivers at least one byte. -/
def outputsPositive (tr : List Ev) : Bool :=
  tr.all evOutputPositive

/-- Clock-consistency of an active interaction at current time `t`:
its times are ordered `t0 ≤ first ≤ last ≤ t` and first- and last-output
times are set together; when the flag `pos` is set (recording that every
output event of the trace delivered at least one byte) an output time is
additionally set exactly when output bytes have been counted. -/
def ActInv (pos : Bool) (t : Int) (it : ActiveInteraction) : Prop :=
  it.t0Ms ≤ t ∧
    (∀ f, it.firstOutputAtMs = some f → it.t0Ms ≤ f) ∧
    (∀ l, it.lastOutputAtMs = some l → l ≤ t) ∧
    (∀ f l, it.firstOutputAtMs = some f → it.lastOutputAtMs = some l → f ≤ l) ∧
    (it.firstOutputAtMs.isSome ↔ it.lastOutputAtMs.isSome) ∧
    (pos = true → (it.firstOutputAtMs.isSome ↔ 0 < it.outputBytes))

/-- Clock-consistency of both active slots. -/
def StInv (pos : Bool) (t : Int) (s : TrackerState) : Prop :=
  (∀ k, s.activeKeystroke = some k → ActInv pos t k) ∧
    (∀ a, s.activeTurn = some a → ActInv pos t a)

/-- The latency-ordering property of a finalized `Interaction`: `t1Ms` and
`t2Ms` are present together and satisfy `0 ≤ t1Ms ≤ t2Ms`; when the flag
`pos` is set they are additionally present exactly when output bytes were
counted. -/
def LatencyOrdered (pos : Bool) (i : Interaction) : Prop :=
  (i.t1Ms.isSome ↔ i.t2Ms.isSome) ∧
    (∀ a b, i.t1Ms = some a → i.t2Ms = some b → 0 ≤ a ∧ a ≤ b) ∧
    (pos = true → (i.t1Ms.isSome ↔ 0 < i.outputBytes))

/-- C6 counterexample trace: one input byte, then an output event carrying zero
bytes, then session end; the clock is monotone. -/
def trZeroOutput : List Ev :=
  [.input "a" 1 0, .output 0 5, .endSession]

/-- The record the C6 counterexample trace emits. -/
def zeroOutputRec : Interaction :=
  { id := 1, kind := .keystroke, t0Ms := 0, t1Ms := some 5, t2Ms := some 5,
    inputBytes := 1, outputBytes := 0, turnIndex := none, endReason := .sessionEnd }

/-- C6 witness trace: one input byte, two output events (3 and 2 bytes), idle
timer, session end. -/
def trLatency : List Ev :=
  [.input "x" 1 0, .output 3 5, .output 2 9, .timers 40, .endSession]

/-- The burst-idle record the C6 witness trace emits. -/
def latencyRec : Interaction :=
  { id := 1, kind := .keystroke, t0Ms := 0, t1Ms := some 5, t2Ms := some 9,
    inputBytes := 1, outputBytes := 5, turnIndex := none, endReason := .burstIdle }

/-- The record of the C10 witness. -/
def keystrokeTimeoutRec : Interaction :=
  { id := 1, kind := .keystroke, t0Ms := 0, t1Ms := none, t2Ms := none,
    inputBytes := 0 + 1, outputBytes := 0, turnIndex := none, endReason := .timeout }

/-! ### Markers (`src/session/markers.ts`) -/

/-- The JSON object a `markers.jsonl` line carries (`MarkerLine` in
`src/session/markers.ts`). -/
structure MarkerRecord where
  tIso : String
  tMs : Option Int
  label : Option String
  labelSha256 : Option String
  deriving DecidableEq, Repr

/-- JS `String.prototype.trim`: strip leading and trailing whitespace (stated
over the character list of the string so it evaluates by kernel reduction). -/
def jsTrim (s : String) : String :=
  ⟨((s.data.dropWhile Char.isWhitespace).reverse.dropWhile Char.isWhitespace).reverse⟩

/-- The record construction inside `appendMarker` (`src/session/markers.ts`).
The SHA-256 hex digest and the wall-clock ISO string are parameters (the
source obtains them from `crypto` and `new Date()`); JS truthiness of the
trimmed label means "non-empty"; a non-finite `tMs` is modelled by `none`. -/
def appendMarkerRecord (sha256Hex : String → String) (tIso : String) (tMs : Option Int)
    (label : Option String) (storePlaintextLabel : Bool) : MarkerRecord :=
  let label := label.map jsTrim
  match label with
  | some l =>
      if l ≠ "" then
        { tIso := tIso, tMs := tMs
          label := if storePlaintextLabel then some l else none
          labelSha256 := some (sha256Hex l) }
      else { tIso := tIso, tMs := tMs, label := none, labelSha256 := none }
  | none => { tIso := tIso, tMs := tMs, label := none, labelSha256 := none }

/-- `markerLineToEvent` (`src/session/markers.ts`): a `MarkerEvent` carries
`tMs` and whatever label forms the line provided. -/
structure MarkerEvent where
  tMs : Int
  label : Option String
  labelSha256 : Option String
  deriving DecidableEq, Repr

/-- `markerLineToEvent` copies the label forms from the line. -/
def markerLineToEvent (line : MarkerRecord) (tMs : Int) : MarkerEvent :=
  { tMs := tMs, label := line.label, labelSha256 := line.labelSha256 }

/-! ### External-log selection (`src/session/jsonlTracker.ts`) -/

/-- `JsonlCandidate` from `src/session/jsonlTracker.ts`: path, modification
time, and size from `stat`. -/
structure JsonlCandidate where
  p : String
  mtimeMs : Int
  sizeBytes : Int
  deriving DecidableEq, Repr

/-- The loop body of `pickLargestCandidate`. -/
def pickBetter (best : Option JsonlCandidate) (c : JsonlCandidate) :
    Option JsonlCandidate :=
  match best with
  | none => some c
  | some b =>
      if c.sizeBytes > b.sizeBytes then some c
      else if c.sizeBytes = b.sizeBytes ∧ c.mtimeMs > b.mtimeMs then some c
      else some b

/-- `pickLargestCandidate` (`src/session/jsonlTracker.ts`): greatest
`sizeBytes`, ties broken by more recent `mtimeMs`; this is the no-read
selection policy used by `JsonlTracker.ensureActivePath` when
`allowReadForSelection` is false. -/
def pickLargestCandidate (candidates : List JsonlCandidate) : Option JsonlCandidate :=
  candidates.foldl pickBetter none

/-! ### External-log correlator (`src/session/jsonlCorrelate.ts`)

JSON parsing and the extractors `extractEpochMs`, `extractRole`,
`extractToolNames` and `extractTokenUsage` are abstracted into pre-extracted
fields of `JRec`; a JSONL line is its UTF-8 byte length together with the
parse result (`none` = `JSON.parse` failure).  Empty lines are skipped by the
stream loop before any counter is touched and are therefore not part of the
line list. -/

/-- A recognized record role (`extractRole` returns only these). -/
inductive JRole
  | user
  | assistant
  deriving DecidableEq, Repr

/-- A parsed JSONL record, reduced to the fields the correlator consumes. -/
structure JRec where
  epochMs : Option Int
  role : Option JRole
  toolNames : List String
  inputTokens : Option Int
  outputTokens : Option Int
  deriving DecidableEq, Repr

/-- A non-empty JSONL line: its UTF-8 byte length and parse result
(`parsed = none` models a `JSON.parse` failure). -/
structure JLine where
  byteLen : Nat
  parsed : Option JRec
  deriving DecidableEq, Repr

/-- A per-turn aggregation bucket (the `perTurn` entries during the loop;
`toolUseNames` is a JS `Set`, modelled as an insertion-ordered duplicate-free
list). -/
structure Bucket where
  turnIndex : Nat
  recordCount : Nat
  recordBytes : Nat
  toolUseCount : Nat
  toolUseNames : List String
  inputTokenCount : Int
  outputTokenCount : Int
  deriving DecidableEq, Repr

/-- JS `Set.add`: keep insertion order, ignore duplicates. -/
def insertName (names : List String) (n : String) : List String :=
  if n ∈ names then names else names ++ [n]

/-- `applyRecord` (`src/session/jsonlCorrelate.ts`). -/
def applyRecord (bu : Bucket) (lineBytes : Nat) (rec : JRec) : Bucket :=
  { bu with
    recordCount := bu.recordCount + 1
    recordBytes := bu.recordBytes + lineBytes
    toolUseCount := bu.toolUseCount + rec.toolNames.length
    toolUseNames := rec.toolNames.foldl insertName bu.toolUseNames
    inputTokenCount := bu.inputTokenCount + rec.inputTokens.getD 0
    outputTokenCount := bu.outputTokenCount + rec.outputTokens.getD 0 }

/-- `perTurnByIndex` is a JS `Map` built by iterating `perTurn` and calling
`set`, so an index maps to the *last* bucket carrying it; applying a record
through the map therefore updates the last bucket with the given turn index. -/
def updateLast (idx : Nat) (f : Bucket → Bucket) : List Bucket → List Bucket
  | [] => []
  | bu :: rest =>
      if rest.any fun b2 => b2.turnIndex == idx then bu :: updateLast idx f rest
      else if bu.turnIndex = idx then f bu :: rest
      else bu :: rest

/-- `const t = opts.turns[ptr]; if (t) applyRecord(perTurnByIndex.get(t.index), …)`. -/
def applyAtTurn (turns : List TurnEvent) (idx : Nat) (buckets : List Bucket)
    (lineBytes : Nat) (rec : JRec) : List Bucket :=
  match turns.get? idx with
  | some t => updateLast t.index (fun bu => applyRecord bu lineBytes rec) buckets
  | none => buckets

/-- `advanceTurnPtr` (`src/session/jsonlCorrelate.ts`): advance while the next
turn's epoch is ≤ the record epoch. -/
def advanceTurnPtr (turnEpochMs : List Int) (epochMs : Int) (ptr : Nat) : Nat :=
  if h : ptr + 1 < turnEpochMs.length ∧ turnEpochMs.getD (ptr + 1) 0 ≤ epochMs then
    advanceTurnPtr turnEpochMs epochMs (ptr + 1)
  else ptr
termination_by turnEpochMs.length - ptr
decreasing_by
  simp_wf
  omega

/-- The mutable state of the correlator loop. -/
structure CorrelState where
  turnPtr : Nat
  seqPtr : Int
  buckets : List Bucket
  parsedLines : Nat
  parsedBytes : Nat
  parseErrors : Nat
  usedTimestamps : Nat
  seenAnyTimestamp : Nat
  usedSequential : Bool
  stopped : Bool
  deriving DecidableEq, Repr

/-- The loop state before the first line: empty buckets (one per turn), the
timestamp pointer at 0, the sequential pointer at `-1`. -/
def correlInit (turns : List TurnEvent) : CorrelState :=
  { turnPtr := 0
    seqPtr := -1
    buckets := turns.map fun t =>
      { turnIndex := t.index, recordCount := 0, recordBytes := 0, toolUseCount := 0,
        toolUseNames := [], inputTokenCount := 0, outputTokenCount := 0 }
    parsedLines := 0
    parsedBytes := 0
    parseErrors := 0
    usedTimestamps := 0
    seenAnyTimestamp := 0
    usedSequential := false
    stopped := false }

/-- One iteration of the `for await (const line of rl)` loop of
`correlateJsonlToTurns`; the `break` is modelled by the `stopped` flag. -/
def correlStep (turns : List TurnEvent) (startedAtMsEpoch : Int)
    (endedAtMsEpoch : Option Int) (s : CorrelState) (l : JLine) : CorrelState :=
  if s.stopped then s
  else
    let s := { s with parsedLines := s.parsedLines + 1
                      parsedBytes := s.parsedBytes + l.byteLen }
    match l.parsed with
    | none => { s with parseErrors := s.parseErrors + 1 }
    | some rec =>
        match rec.epochMs with
        | some epochMs =>
            let s := { s with seenAnyTimestamp := s.seenAnyTimestamp + 1 }
            if epochMs < startedAtMsEpoch - 10000 then s
            else if (match endedAtMsEpoch with
                      | some e => decide (e + 60000 < epochMs)
                      | none => false) = true ∧ 0 < s.usedTimestamps then
              { s with stopped := true }
            else
              let s := { s with usedTimestamps := s.usedTimestamps + 1 }
              let ptr := advanceTurnPtr (turns.map fun t => startedAtMsEpoch + t.tMs)
                epochMs s.turnPtr
              let s := { s with turnPtr := ptr }
              { s with buckets := applyAtTurn turns ptr s.buckets l.byteLen rec }
        | none =>
            let s :=
              if rec.role = some JRole.user then
                { s with usedSequential := true, seqPtr := s.seqPtr + 1 }
              else s
            if rec.role = some JRole.user ∧ (turns.length : Int) ≤ s.seqPtr then s
            else if 0 ≤ s.seqPtr ∧ s.seqPtr < (turns.length : Int) then
              { s with buckets := applyAtTurn turns s.seqPtr.toNat s.buckets l.byteLen rec }
            else s

/-- The whole streaming loop. -/
def correlateLines (turns : List TurnEvent) (startedAtMsEpoch : Int)
    (endedAtMsEpoch : Option Int) (lines : List JLine) : CorrelState :=
  lines.foldl (correlStep turns startedAtMsEpoch endedAtMsEpoch) (correlInit turns)

/-- `JsonlCorrelation["mode"]` from `src/session/schema.ts`. -/
inductive CorrelMode
  | timestamps
  | sequential
  | noneMode
  deriving DecidableEq, Repr

/-- A `perTurn` entry of the correlation result. -/
structure PerTurnCorrelation where
  turnIndex : Nat
  recordCount : Nat
  recordBytes : Nat
  toolUseCount : Nat
  toolUseNames : List String
  inputTokenCount : Option Int
  outputTokenCount : Option Int
  deriving DecidableEq, Repr

/-- `JsonlCorrelation` from `src/session/schema.ts`. -/
structure JsonlCorrelation where
  enabled : Bool
  mode : CorrelMode
  parsedLines : Nat
  parsedBytes : Nat
  parseErrors : Nat
  perTurn : List PerTurnCorrelation
  notes : List String
  deriving DecidableEq, Repr

/-- `correlateJsonlToTurns` (`src/session/jsonlCorrelate.ts`): the early
return for an empty turn list, the streaming loop, and the result assembly
(`[...set].sort()` modelled by a sort of the insertion-ordered name list;
`x || undefined` on a token total modelled by mapping `0` to `none`). -/
def correlateJsonlToTurns (turns : List TurnEvent) (startedAtMsEpoch : Int)
    (endedAtMsEpoch : Option Int) (lines : List JLine) : JsonlCorrelation :=
  if turns.length = 0 then
    { enabled := true, mode := .noneMode, parsedLines := 0, parsedBytes := 0
      parseErrors := 0, perTurn := []
      notes := ["No turns recorded; cannot correlate JSONL."] }
  else
    let st := correlateLines turns startedAtMsEpoch endedAtMsEpoch lines
    let mode : CorrelMode :=
      if 0 < st.usedTimestamps then .timestamps
      else if st.usedSequential then .sequential
      else .noneMode
    let notes1 : List String :=
      if mode = .noneMode then
        ["No usable timestamps or user-message markers found in JSONL; correlation may be incomplete."]
      else []
    let notes2 : List String :=
      if 0 < st.seenAnyTimestamp ∧ st.usedTimestamps = 0 then
        ["JSONL timestamps were present but all fell outside the session time window."]
      else []
    { enabled := true
      mode := mode
      parsedLines := st.parsedLines
      parsedBytes := st.parsedBytes
      parseErrors := st.parseErrors
      perTurn := st.buckets.map fun bu =>
        { turnIndex := bu.turnIndex
          recordCount := bu.recordCount
          recordBytes := bu.recordBytes
          toolUseCount := bu.toolUseCount
          toolUseNames := List.insertionSort (· ≤ ·) bu.toolUseNames
          inputTokenCount :=
            if bu.inputTokenCount = (0 : Int) then none else some bu.inputTokenCount
          outputTokenCount :=
            if bu.outputTokenCount = (0 : Int) then none else some bu.outputTokenCount }
      notes := notes1 ++ notes2 }

/-! ### Session finalize (`src/session/runSession.ts`) -/

/-- `--turn-hotkey` choice. -/
inductive TurnHotkey
  | altT
  | off
  deriving DecidableEq, Repr

/-- `RunSessionOptions` (`src/session/runSession.ts`, lines 21–35).  Note the
interface declares no `correlateJsonl` field even though the CLI
(`src/cli/program.ts`) passes one and `SessionConfig` in `schema.ts` requires
it. -/
structure RunSessionOptions where
  command : List String
  cwd : String
  outputDir : Option String
  jsonlPath : Option String
  burstIdleMs : Int
  interactionTimeoutMs : Int
  sampleIntervalMs : Int
  turnHotkey : TurnHotkey
  durationMs : Option Int
  disableMcps : Bool
  unsafeStorePaths : Bool
  unsafeStoreCommand : Bool
  unsafeStoreErrors : Bool
  deriving DecidableEq, Repr

/-- A size sample recorded by the `JsonlTracker`. -/
structure JsonlSizeSample where
  turnIndex : Nat
  tMs : Int
  sizeBytes : Int
  deriving DecidableEq, Repr

/-- The two getters of the `JsonlTracker` that `finalize` reads
(`getActivePathSha256()` and `getSamples()`). -/
structure JsonlTrackerView where
  activePathSha256 : Option String
  samples : List JsonlSizeSample
  deriving DecidableEq, Repr

/-- `JsonlTracking` from `src/session/schema.ts`: the `jsonl` field of the
written `SessionData`, whose schema declares an optional `correlation`. -/
structure JsonlTracking where
  activePathSha256 : Option String
  samples : List JsonlSizeSample
  correlation : Option JsonlCorrelation
  deriving DecidableEq, Repr

/-- The `session.jsonl` assembly inside `finalize` (`src/session/runSession.ts`
lines 150–155): `session.jsonl = { activePathSha256: …, samples: … }`.  The
closure has `opts` in scope but reads nothing from it here, and
`correlateJsonlToTurns` is never invoked anywhere in `runSession`, so no
`correlation` field is ever attached. -/
def finalizeJsonlTracking (_opts : RunSessionOptions) (tracker : JsonlTrackerView) :
    JsonlTracking :=
  { activePathSha256 := tracker.activePathSha256
    samples := tracker.samples
    correlation := none }

/-- The turn list of the C9 witness. -/
def seqTurns : List TurnEvent :=
  [{ index := 1, tMs := 0, source := .enter }, { index := 2, tMs := 100, source := .enter }]

/-- A user-role record with no timestamp, for the C9 witness. -/
def seqUserRec : JRec :=
  { epochMs := none, role := some .user, toolNames := [], inputTokens := none,
    outputTokens := none }

/-- The JSONL line carrying `seqUserRec`, for the C9 witness. -/
def seqUserLine : JLine :=
  { byteLen := 10, parsed := some seqUserRec }

/-! ### Theorems -/

/-- `handleInput` inspects the input bytes only through `bufferContainsEnter`. -/
theorem handleInput_congr (o : TrackerOptions) (s : TrackerState) (b : Nat) (n : Int)
    {d1 d2 : String} (h : bufferContainsEnter d1 = bufferContainsEnter d2) :
    handleInput o s d1 b n = handleInput o s d2 b n := by
  unfold handleInput
  rw [h]

/-- A tracker step is determined by the observation of the event. -/
theorem step_congr (o : TrackerOptions) (s : TrackerState) {e1 e2 : Ev}
    (h : evObs e1 = evObs e2) : step o s e1 = step o s e2 := by
  cases e1 <;> cases e2 <;> simp only [evObs] at h <;> try simp at h
  case input.input =>
    obtain ⟨h1, h2, h3⟩ := h
    subst h2; subst h3
    exact handleInput_congr o s _ _ h1
  all_goals simp_all [step]

/-- A run is determined by the observations of the trace. -/
theorem runFrom_congr (o : TrackerOptions) :
    ∀ (tr1 tr2 : List Ev) (s : TrackerState), tr1.map evObs = tr2.map evObs →
      runFrom o s tr1 = runFrom o s tr2 := by
  intro tr1
  induction tr1 with
  | nil =>
    intro tr2 s h
    cases tr2 with
    | nil => rfl
    | cons e rest => simp at h
  | cons e1 rest1 ih =>
    intro tr2 s h
    cases tr2 with
    | nil => simp at h
    | cons e2 rest2 =>
      simp only [List.map_cons, List.cons.injEq] at h
      simp only [runFrom, step_congr o s h.1, ih rest2 _ h.2]

/-- C1: Privacy / noninterference of the Interaction Tracker.  Two event
sequences that agree on byte lengths, line-terminator presence, and event
times (i.e., have equal `evObs` projections) — but may differ arbitrarily in
the actual input byte contents — drive the tracker to identical states and
identical `TurnEvent` / `Interaction` emission sequences.  In particular no
field of any emitted record is derived from input or output byte content. -/
theorem tracker_noninterference (o : TrackerOptions) (tr1 tr2 : List Ev)
    (h : tr1.map evObs = tr2.map evObs) : run o tr1 = run o tr2 :=
  runFrom_congr o tr1 tr2 initState h

/-- C1 witness: the `SECRET` trace and the masked trace agree on observations
and produce identical emissions. -/
theorem tracker_noninterference_witness :
    trSecret.map evObs = trMasked.map evObs ∧
      run defaultOpts trSecret = run defaultOpts trMasked :=
  ⟨by decide, tracker_noninterference defaultOpts trSecret trMasked (by decide)⟩

/-- C4: Emission ordering of begin-turn.  When a new turn begins while a prior
turn interaction is still active, `beginTurn` emits the `TurnEvent` for the
new turn (the `onTurn` invocation) strictly before the `overlap`-finalized
`Interaction` of the prior turn (the `onInteraction` invocation): the
emission list is exactly the turn event followed by the overlap record. -/
theorem beginTurn_turn_precedes_overlap (o : TrackerOptions) (s : TrackerState)
    (src : TurnDetectionMode) (now : Int) (it : ActiveInteraction)
    (h : s.activeTurn = some it) :
    (beginTurn o s src now).2 =
      [Emit.turn { index := s.turnIndex + 1, tMs := now, source := src },
       Emit.interaction (finalizeRecord it .overlap)] := by
  simp [beginTurn, h, finalize]

/-- C4 witness: at a concrete overlapping state the turn event for turn 2 is
emitted before the `overlap` finalization of turn 1's interaction. -/
theorem beginTurn_turn_precedes_overlap_witness :
    statePriorTurn.activeTurn = some priorTurnIt ∧
      (beginTurn defaultOpts statePriorTurn .enter 10).2 =
        [Emit.turn { index := statePriorTurn.turnIndex + 1, tMs := 10, source := .enter },
         Emit.interaction (finalizeRecord priorTurnIt .overlap)] :=
  ⟨rfl, beginTurn_turn_precedes_overlap defaultOpts statePriorTurn .enter 10 priorTurnIt rfl⟩

/-- Case analysis of `fireActive`: either nothing is finalized, or the
interaction is finalized unchanged with `timeout` (only when no output was
ever observed) or with `burstIdle`. -/
theorem fireActive_cases (it : ActiveInteraction) (now : Int) :
    (∃ it', fireActive it now = (none, it')) ∨
      (fireActive it now = (some .timeout, it) ∧ it.firstOutputAtMs = none) ∨
        fireActive it now = (some .burstIdle, it) := by
  unfold fireActive
  split_ifs with h1 h2 h3
  · exact .inr (.inl ⟨rfl, h2⟩)
  · exact .inl ⟨_, rfl⟩
  · exact .inr (.inr rfl)
  · exact .inl ⟨_, rfl⟩

/-- Any interaction emitted by `finalize` is the corresponding record. -/
theorem mem_finalize {s : TrackerState} {it : ActiveInteraction} {reason : EndReason}
    {i : Interaction} (h : Emit.interaction i ∈ (finalize s it reason).2) :
    i = finalizeRecord it reason := by
  simp [finalize] at h
  exact h

/-- `clearSlots` never invents a turn slot. -/
theorem clearSlots_activeTurn {s : TrackerState} {idv : Nat} {a : ActiveInteraction}
    (h : (clearSlots s idv).activeTurn = some a) : s.activeTurn = some a := by
  unfold clearSlots at h
  dsimp only at h
  rcases ht : s.activeTurn with _ | b <;> rw [ht] at h
  · exact absurd h (by simp)
  · dsimp only at h
    split at h
    · exact absurd h (by simp)
    · exact h

/-- `clearSlots` never invents a keystroke slot. -/
theorem clearSlots_activeKeystroke {s : TrackerState} {idv : Nat} {a : ActiveInteraction}
    (h : (clearSlots s idv).activeKeystroke = some a) : s.activeKeystroke = some a := by
  unfold clearSlots at h
  dsimp only at h
  rcases ht : s.activeKeystroke with _ | b <;> rw [ht] at h
  · exact absurd h (by simp)
  · dsimp only at h
    split at h
    · exact absurd h (by simp)
    · exact h

/-- Every interaction emitted by `beginTurn` is the `overlap`-finalization of
the previously active turn interaction. -/
theorem beginTurn_emits {o : TrackerOptions} {s : TrackerState} {src : TurnDetectionMode}
    {now : Int} {i : Interaction} (h : Emit.interaction i ∈ (beginTurn o s src now).2) :
    ∃ it, s.activeTurn = some it ∧ i = finalizeRecord it .overlap := by
  unfold beginTurn at h
  dsimp only at h
  rcases ha : s.activeTurn with _ | it <;> rw [ha] at h <;> simp [finalize] at h
  exact ⟨it, rfl, h⟩

/-- `ensureKeystroke` does not touch the turn slot. -/
theorem ensureKeystroke_activeTurn (o : TrackerOptions) (s : TrackerState) (now : Int) :
    (ensureKeystroke o s now).activeTurn = s.activeTurn := by
  unfold ensureKeystroke
  rcases s.activeKeystroke with _ | k <;> rfl

/-- `ensureKeystroke` does not touch the turn counter. -/
theorem ensureKeystroke_turnIndex (o : TrackerOptions) (s : TrackerState) (now : Int) :
    (ensureKeystroke o s now).turnIndex = s.turnIndex := by
  unfold ensureKeystroke
  rcases s.activeKeystroke with _ | k <;> rfl

/-- `addKeystrokeBytes` does not touch the turn slot. -/
theorem addKeystrokeBytes_activeTurn (s : TrackerState) (b : Nat) :
    (addKeystrokeBytes s b).activeTurn = s.activeTurn := rfl

/-- `addKeystrokeBytes` does not touch the turn counter. -/
theorem addKeystrokeBytes_turnIndex (s : TrackerState) (b : Nat) :
    (addKeystrokeBytes s b).turnIndex = s.turnIndex := rfl

/-- `addTurnBytes` does not touch the keystroke slot. -/
theorem addTurnBytes_activeKeystroke (s : TrackerState) (b : Nat) :
    (addTurnBytes s b).activeKeystroke = s.activeKeystroke := rfl

/-- `addTurnBytes` does not touch the turn counter. -/
theorem addTurnBytes_turnIndex (s : TrackerState) (b : Nat) :
    (addTurnBytes s b).turnIndex = s.turnIndex := rfl

/-- Every interaction emitted by `handleInput` is the `overlap`-finalization of
the previously active turn interaction. -/
theorem handleInput_emits {o : TrackerOptions} {s : TrackerState} {d : String}
    {b : Nat} {n : Int} {i : Interaction}
    (h : Emit.interaction i ∈ (handleInput o s d b n).2) :
    ∃ it, s.activeTurn = some it ∧ i = finalizeRecord it .overlap := by
  unfold handleInput at h
  by_cases hc : o.turnDetection = TurnDetectionMode.enter ∧ bufferContainsEnter d = true
  · rw [if_pos hc] at h
    dsimp only at h
    obtain ⟨it, hit, hi⟩ := beginTurn_emits h
    rw [addKeystrokeBytes_activeTurn, ensureKeystroke_activeTurn] at hit
    exact ⟨it, hit, hi⟩
  · rw [if_neg hc] at h
    simp at h

/-- Every interaction emitted by `endSession` is the `sessionEnd`-finalization
of one of the two active slots. -/
theorem endSession_emits {s : TrackerState} {i : Interaction}
    (h : Emit.interaction i ∈ (endSession s).2) :
    ∃ it, (s.activeKeystroke = some it ∨ s.activeTurn = some it) ∧
      i = finalizeRecord it .sessionEnd := by
  unfold endSession at h
  dsimp only at h
  rcases hk : s.activeKeystroke with _ | k <;> rw [hk] at h <;> dsimp only at h
  · rcases ha : s.activeTurn with _ | a <;> rw [ha] at h <;> dsimp only at h
    · simp at h
    · rw [List.nil_append] at h
      exact ⟨a, .inr rfl, mem_finalize h⟩
  · rcases ht : (finalize s k EndReason.sessionEnd).1.activeTurn with _ | a <;>
      rw [ht] at h <;> dsimp only at h
    · rw [List.append_nil] at h
      exact ⟨k, .inl rfl, mem_finalize h⟩
    · rw [List.mem_append] at h
      rcases h with h | h
      · exact ⟨k, .inl rfl, mem_finalize h⟩
      · have haS : s.activeTurn = some a := clearSlots_activeTurn (by simpa [finalize] using ht)
        exact ⟨a, .inr haS, mem_finalize h⟩

/-- Every interaction emitted by the keystroke-slot sweep is a finalization of
the keystroke slot, with `timeout` only when it never observed output. -/
theorem fireKeystrokeSlot_emits {s : TrackerState} {n : Int} {i : Interaction}
    (h : Emit.interaction i ∈ (fireKeystrokeSlot s n).2) :
    ∃ it reason, s.activeKeystroke = some it ∧ i = finalizeRecord it reason ∧
      (reason = .timeout → it.firstOutputAtMs = none) := by
  unfold fireKeystrokeSlot at h
  rcases hk : s.activeKeystroke with _ | k <;> rw [hk] at h <;> dsimp only at h
  · simp at h
  · rcases fireActive_cases k n with ⟨k', hfk⟩ | ⟨hfk, h1⟩ | hfk <;> rw [hfk] at h <;>
      dsimp only at h
    · simp at h
    · exact ⟨k, .timeout, rfl, mem_finalize h, fun _ => h1⟩
    · exact ⟨k, .burstIdle, rfl, mem_finalize h, fun hx => by cases hx⟩

/-- Every interaction emitted by the turn-slot sweep is a finalization of the
turn slot, with `timeout` only when it never observed output. -/
theorem fireTurnSlot_emits {s : TrackerState} {n : Int} {i : Interaction}
    (h : Emit.interaction i ∈ (fireTurnSlot s n).2) :
    ∃ it reason, s.activeTurn = some it ∧ i = finalizeRecord it reason ∧
      (reason = .timeout → it.firstOutputAtMs = none) := by
  unfold fireTurnSlot at h
  rcases ha : s.activeTurn with _ | a <;> rw [ha] at h <;> dsimp only at h
  · simp at h
  · rcases fireActive_cases a n with ⟨a', hfa⟩ | ⟨hfa, h1⟩ | hfa <;> rw [hfa] at h <;>
      dsimp only at h
    · simp at h
    · exact ⟨a, .timeout, rfl, mem_finalize h, fun _ => h1⟩
    · exact ⟨a, .burstIdle, rfl, mem_finalize h, fun hx => by cases hx⟩

/-- The keystroke-slot sweep never invents a turn slot. -/
theorem fireKeystrokeSlot_activeTurn {s : TrackerState} {n : Int} {a : ActiveInteraction}
    (h : (fireKeystrokeSlot s n).1.activeTurn = some a) : s.activeTurn = some a := by
  unfold fireKeystrokeSlot at h
  rcases hk : s.activeKeystroke with _ | k <;> rw [hk] at h <;> dsimp only at h
  · exact h
  · rcases fireActive_cases k n with ⟨k', hfk⟩ | ⟨hfk, h1⟩ | hfk <;> rw [hfk] at h <;>
      dsimp only at h
    · exact h
    · exact clearSlots_activeTurn (by simpa [finalize] using h)
    · exact clearSlots_activeTurn (by simpa [finalize] using h)

/-- Every interaction emitted by the timer sweep is a `timeout` or `burstIdle`
finalization of one of the two active slots, and a `timeout` finalization only
happens when the slot never observed output. -/
theorem fireTimers_emits {s : TrackerState} {n : Int} {i : Interaction}
    (h : Emit.interaction i ∈ (fireTimers s n).2) :
    ∃ it reason, (s.activeKeystroke = some it ∨ s.activeTurn = some it) ∧
      i = finalizeRecord it reason ∧ (reason = .timeout → it.firstOutputAtMs = none) := by
  unfold fireTimers at h
  dsimp only at h
  rw [List.mem_append] at h
  rcases h with h | h
  · obtain ⟨it, reason, hs, hi, hto⟩ := fireKeystrokeSlot_emits h
    exact ⟨it, reason, .inl hs, hi, hto⟩
  · obtain ⟨it, reason, hs, hi, hto⟩ := fireTurnSlot_emits h
    exact ⟨it, reason, .inr (fireKeystrokeSlot_activeTurn hs), hi, hto⟩

/-- One tracker step emits a `timeout` interaction only without a first-output
time. -/
theorem step_timeout_t1_none {o : TrackerOptions} {s : TrackerState} {e : Ev}
    {i : Interaction} (h : Emit.interaction i ∈ (step o s e).2)
    (hr : i.endReason = .timeout) : i.t1Ms = none := by
  cases e with
  | input d b n =>
    obtain ⟨it, _, hi⟩ := handleInput_emits h
    subst hi
    simp [finalizeRecord] at hr
  | output b n => simp [step, handleOutput] at h
  | mark src n =>
    obtain ⟨it, _, hi⟩ := beginTurn_emits h
    subst hi
    simp [finalizeRecord] at hr
  | timers n =>
    obtain ⟨it, reason, _, hi, hto⟩ := fireTimers_emits h
    subst hi
    have hre : reason = .timeout := by simpa [finalizeRecord] using hr
    subst hre
    simp [finalizeRecord, hto rfl]
  | endSession =>
    obtain ⟨it, _, hi⟩ := endSession_emits h
    subst hi
    simp [finalizeRecord] at hr

/-- C5 over arbitrary start states. -/
theorem runFrom_timeout_t1_none (o : TrackerOptions) :
    ∀ (tr : List Ev) (s : TrackerState) (i : Interaction),
      Emit.interaction i ∈ (runFrom o s tr).2 → i.endReason = .timeout →
        i.t1Ms = none := by
  intro tr
  induction tr with
  | nil => intro s i h hr; simp [runFrom] at h
  | cons e rest ih =>
    intro s i h hr
    simp only [runFrom, List.mem_append] at h
    rcases h with h | h
    · exact step_timeout_t1_none h hr
    · exact ih _ i h hr

/-- C5: Stale-timer safety.  Every `Interaction` the tracker finalizes with
end reason `timeout` carries no `t1Ms`, i.e. it never observed any output.
Contrapositively, an interaction whose first output arrived before the
no-output timer fired (output observation cancels that timer) is never
finalized with reason `timeout`. -/
theorem tracker_timeout_never_after_output (o : TrackerOptions) (tr : List Ev)
    (i : Interaction) (h : Emit.interaction i ∈ runEmits o tr)
    (hr : i.endReason = .timeout) : i.t1Ms = none :=
  runFrom_timeout_t1_none o tr initState i h hr

/-- C5 witness: a concrete run that emits a `timeout` interaction, to which the
theorem applies. -/

theorem tracker_timeout_never_after_output_witness :
    Emit.interaction timeoutRec ∈ runEmits defaultOpts [.input "a" 1 0, .timers 2000] ∧
      timeoutRec.endReason = .timeout ∧ timeoutRec.t1Ms = none :=
  ⟨by decide, by decide,
    tracker_timeout_never_after_output defaultOpts [.input "a" 1 0, .timers 2000]
      timeoutRec (by decide) (by decide)⟩

/-- `turnIndices` distributes over append. -/
theorem turnIndices_append (es1 es2 : List Emit) :
    turnIndices (es1 ++ es2) = turnIndices es1 ++ turnIndices es2 :=
  List.filterMap_append es1 es2 _

/-- `beginTurn` advances the turn counter by exactly one. -/
theorem beginTurn_turnIndexState (o : TrackerOptions) (s : TrackerState)
    (src : TurnDetectionMode) (now : Int) :
    (beginTurn o s src now).1.turnIndex = s.turnIndex + 1 := by
  unfold beginTurn
  dsimp only
  rcases ha : s.activeTurn with _ | it <;> dsimp only <;>
    simp [finalize, clearSlots, startInteraction]

/-- `beginTurn` emits exactly one turn event, carrying the new counter value. -/
theorem beginTurn_turnIndicesEmit (o : TrackerOptions) (s : TrackerState)
    (src : TurnDetectionMode) (now : Int) :
    turnIndices (beginTurn o s src now).2 = [s.turnIndex + 1] := by
  unfold beginTurn
  dsimp only
  rcases ha : s.activeTurn with _ | it <;> dsimp only <;>
    simp [finalize, turnIndices]

/-- `handleInput` either leaves the turn counter alone and emits no turn event,
or advances it by one and emits exactly that index. -/
theorem handleInput_turnIndex (o : TrackerOptions) (s : TrackerState) (d : String)
    (b : Nat) (n : Int) :
    ((handleInput o s d b n).1.turnIndex = s.turnIndex ∧
        turnIndices (handleInput o s d b n).2 = []) ∨
      ((handleInput o s d b n).1.turnIndex = s.turnIndex + 1 ∧
        turnIndices (handleInput o s d b n).2 = [s.turnIndex + 1]) := by
  unfold handleInput
  by_cases hc : o.turnDetection = TurnDetectionMode.enter ∧ bufferContainsEnter d = true
  · right
    rw [if_pos hc]
    dsimp only
    constructor
    · rw [addTurnBytes_turnIndex, beginTurn_turnIndexState, addKeystrokeBytes_turnIndex,
        ensureKeystroke_turnIndex]
    · rw [beginTurn_turnIndicesEmit, addKeystrokeBytes_turnIndex, ensureKeystroke_turnIndex]
  · left
    rw [if_neg hc]
    exact ⟨by rw [addTurnBytes_turnIndex, addKeystrokeBytes_turnIndex, ensureKeystroke_turnIndex],
      rfl⟩

/-- The keystroke-slot sweep preserves the turn counter. -/
theorem fireKeystrokeSlot_turnIndex (s : TrackerState) (n : Int) :
    (fireKeystrokeSlot s n).1.turnIndex = s.turnIndex := by
  unfold fireKeystrokeSlot
  rcases hk : s.activeKeystroke with _ | k <;> dsimp only
  rcases fireActive_cases k n with ⟨k', hfk⟩ | ⟨hfk, h1⟩ | hfk <;> rw [hfk] <;> dsimp only <;>
    simp [finalize, clearSlots]

/-- The turn-slot sweep preserves the turn counter. -/
theorem fireTurnSlot_turnIndex (s : TrackerState) (n : Int) :
    (fireTurnSlot s n).1.turnIndex = s.turnIndex := by
  unfold fireTurnSlot
  rcases ha : s.activeTurn with _ | a <;> dsimp only
  rcases fireActive_cases a n with ⟨a', hfa⟩ | ⟨hfa, h1⟩ | hfa <;> rw [hfa] <;> dsimp only <;>
    simp [finalize, clearSlots]

/-- The keystroke-slot sweep emits no turn events. -/
theorem fireKeystrokeSlot_turnIndices (s : TrackerState) (n : Int) :
    turnIndices (fireKeystrokeSlot s n).2 = [] := by
  unfold fireKeystrokeSlot
  rcases hk : s.activeKeystroke with _ | k <;> dsimp only
  · rfl
  · rcases fireActive_cases k n with ⟨k', hfk⟩ | ⟨hfk, h1⟩ | hfk <;> rw [hfk] <;> dsimp only <;>
      simp [finalize, turnIndices]

/-- The turn-slot sweep emits no turn events. -/
theorem fireTurnSlot_turnIndices (s : TrackerState) (n : Int) :
    turnIndices (fireTurnSlot s n).2 = [] := by
  unfold fireTurnSlot
  rcases ha : s.activeTurn with _ | a <;> dsimp only
  · rfl
  · rcases fireActive_cases a n with ⟨a', hfa⟩ | ⟨hfa, h1⟩ | hfa <;> rw [hfa] <;> dsimp only <;>
      simp [finalize, turnIndices]

/-- The timer sweep preserves the turn counter. -/
theorem fireTimers_turnIndexState (s : TrackerState) (n : Int) :
    (fireTimers s n).1.turnIndex = s.turnIndex := by
  unfold fireTimers
  dsimp only
  rw [fireTurnSlot_turnIndex, fireKeystrokeSlot_turnIndex]

/-- The timer sweep emits no turn events. -/
theorem fireTimers_turnIndices (s : TrackerState) (n : Int) :
    turnIndices (fireTimers s n).2 = [] := by
  unfold fireTimers
  dsimp only
  rw [turnIndices_append, fireKeystrokeSlot_turnIndices, fireTurnSlot_turnIndices]
  rfl

/-- `endSession` preserves the turn counter. -/
theorem endSession_turnIndexState (s : TrackerState) :
    (endSession s).1.turnIndex = s.turnIndex := by
  unfold endSession
  dsimp only
  rcases hk : s.activeKeystroke with _ | k <;> dsimp only
  · rcases ha : s.activeTurn with _ | a <;> (dsimp only; try simp [finalize, clearSlots])
  · rcases ht : (finalize s k EndReason.sessionEnd).1.activeTurn with _ | a <;>
      (dsimp only; try simp [finalize, clearSlots])

/-- `endSession` emits no turn events. -/
theorem endSession_turnIndices (s : TrackerState) :
    turnIndices (endSession s).2 = [] := by
  unfold endSession
  dsimp only
  rcases hk : s.activeKeystroke with _ | k <;> dsimp only
  · rcases ha : s.activeTurn with _ | a <;> dsimp only <;> simp [finalize, turnIndices]
  · rcases ht : (finalize s k EndReason.sessionEnd).1.activeTurn with _ | a <;>
      dsimp only <;> simp [finalize, turnIndices, turnIndices_append]

/-- Each step either leaves the turn counter alone and emits no turn event, or
advances it by one and emits exactly the new value. -/
theorem step_turnIndex (o : TrackerOptions) (s : TrackerState) (e : Ev) :
    ((step o s e).1.turnIndex = s.turnIndex ∧ turnIndices (step o s e).2 = []) ∨
      ((step o s e).1.turnIndex = s.turnIndex + 1 ∧
        turnIndices (step o s e).2 = [s.turnIndex + 1]) := by
  cases e with
  | input d b n => exact handleInput_turnIndex o s d b n
  | output b n => exact .inl ⟨rfl, rfl⟩
  | mark src n =>
    exact .inr ⟨beginTurn_turnIndexState o s src n, beginTurn_turnIndicesEmit o s src n⟩
  | timers n => exact .inl ⟨fireTimers_turnIndexState s n, fireTimers_turnIndices s n⟩
  | endSession => exact .inl ⟨endSession_turnIndexState s, endSession_turnIndices s⟩

/-- Along any run, the emitted turn indices are the dense range starting one
above the initial counter value. -/
theorem runFrom_turnIndices (o : TrackerOptions) :
    ∀ (tr : List Ev) (s : TrackerState),
      ∃ m, (runFrom o s tr).1.turnIndex = s.turnIndex + m ∧
        turnIndices (runFrom o s tr).2 = List.range' (s.turnIndex + 1) m := by
  intro tr
  induction tr with
  | nil => exact fun s => ⟨0, rfl, rfl⟩
  | cons e rest ih =>
    intro s
    obtain ⟨m, hm1, hm2⟩ := ih (step o s e).1
    rcases step_turnIndex o s e with ⟨h1, h2⟩ | ⟨h1, h2⟩
    · refine ⟨m, ?_, ?_⟩
      · simp only [runFrom]
        rw [hm1, h1]
      · simp only [runFrom]
        rw [turnIndices_append, h2, hm2, h1, List.nil_append]
    · refine ⟨m + 1, ?_, ?_⟩
      · simp only [runFrom]
        rw [hm1, h1]
        omega
      · simp only [runFrom]
        rw [turnIndices_append, h2, hm2, h1]
        rw [show s.turnIndex + 1 + 1 = s.turnIndex + 1 + 1 * 1 by ring]
        rw [← List.range'_append]
        simp

/-- C7: Turn-index density.  For every sequence of tracker stimuli, the
emitted `TurnEvent.index` values form, in emission order, exactly the
sequence `1, 2, 3, …` up to the final turn counter — no gaps, no
duplicates. -/
theorem tracker_turn_indices_dense (o : TrackerOptions) (tr : List Ev) :
    turnIndices (runEmits o tr) = List.range' 1 ((run o tr).1.turnIndex) := by
  obtain ⟨m, h1, h2⟩ := runFrom_turnIndices o tr initState
  have h0 : initState.turnIndex = 0 := rfl
  unfold runEmits run at *
  rw [h2, h1, h0]
  norm_num

/-- `ActInv` is monotone in the time bound. -/
theorem ActInv_mono {pos : Bool} {t t' : Int} {it : ActiveInteraction}
    (h : ActInv pos t it) (hle : t ≤ t') : ActInv pos t' it := by
  obtain ⟨h1, h2, h3, h4, h5, h6⟩ := h
  exact ⟨h1.trans hle, h2, fun l hl => (h3 l hl).trans hle, h4, h5, h6⟩

/-- `StInv` is monotone in the time bound. -/
theorem StInv_mono {pos : Bool} {t t' : Int} {s : TrackerState} (h : StInv pos t s)
    (hle : t ≤ t') : StInv pos t' s :=
  ⟨fun k hk => ActInv_mono (h.1 k hk) hle, fun a ha => ActInv_mono (h.2 a ha) hle⟩

/-- Finalizing a clock-consistent active interaction yields a latency-ordered
record. -/
theorem finalizeRecord_ordered {pos : Bool} {t : Int} {it : ActiveInteraction}
    (h : ActInv pos t it) (reason : EndReason) :
    LatencyOrdered pos (finalizeRecord it reason) := by
  obtain ⟨h1, h2, h3, h4, h5, h6⟩ := h
  have e1 : (finalizeRecord it reason).t1Ms = it.firstOutputAtMs.map (· - it.t0Ms) := by
    unfold finalizeRecord
    rcases it.firstOutputAtMs <;> rfl
  have e2 : (finalizeRecord it reason).t2Ms = it.lastOutputAtMs.map (· - it.t0Ms) := by
    unfold finalizeRecord
    rcases it.lastOutputAtMs <;> rfl
  have e3 : (finalizeRecord it reason).outputBytes = it.outputBytes := rfl
  refine ⟨?_, ?_, ?_⟩
  · rw [e1, e2]
    simp only [Option.isSome_map']
    exact h5
  · intro a b ha hb
    rw [e1, Option.map_eq_some'] at ha
    rw [e2, Option.map_eq_some'] at hb
    obtain ⟨f, hf, rfl⟩ := ha
    obtain ⟨l, hl, rfl⟩ := hb
    have hx := h2 f hf
    have hy := h4 f l hf hl
    omega
  · intro hp
    rw [e1, e3]
    simp only [Option.isSome_map']
    exact h6 hp

/-- `observeOutput` preserves clock-consistency when the clock is monotone;
the byte-positivity conjunct is kept when the output event carries at least
one byte. -/
theorem observeOutput_inv {pos : Bool} {o : TrackerOptions} {t n : Int} {b : Nat}
    {it : ActiveInteraction} (h : ActInv pos t it) (ht : t ≤ n)
    (hb : pos = true → 0 < b) : ActInv pos n (observeOutput o it n b) := by
  obtain ⟨h1, h2, h3, h4, h5, h6⟩ := h
  unfold observeOutput
  by_cases hn0 : it.firstOutputAtMs = none
  · rw [if_pos hn0]
    refine ⟨?_, ?_, ?_, ?_, ?_, ?_⟩ <;> dsimp only
    · omega
    · intro f' hf'
      rw [Option.some.injEq] at hf'
      omega
    · intro l hl
      rw [Option.some.injEq] at hl
      omega
    · intro f' l hf' hl
      rw [Option.some.injEq] at hf' hl
      omega
    · simp
    · intro hp
      have hb' := hb hp
      simp only [Option.isSome_some, true_iff]
      omega
  · rw [if_neg hn0]
    obtain ⟨f, hf⟩ := Option.ne_none_iff_exists'.mp hn0
    have hex : ∃ l, it.lastOutputAtMs = some l := by
      rw [hf] at h5
      simp only [Option.isSome_some, true_iff] at h5
      exact Option.isSome_iff_exists.mp h5
    obtain ⟨l0, hl0⟩ := hex
    refine ⟨?_, ?_, ?_, ?_, ?_, ?_⟩ <;> dsimp only
    · omega
    · exact h2
    · intro l hl
      rw [Option.some.injEq] at hl
      omega
    · intro f' l hf' hl
      rw [hf, Option.some.injEq] at hf'
      rw [Option.some.injEq] at hl
      subst hf'
      have hx := h4 f l0 hf hl0
      have hy := h3 l0 hl0
      omega
    · rw [hf]
      simp
    · intro hp
      have hb' := hb hp
      rw [hf]
      simp only [Option.isSome_some, true_iff]
      omega

/-- `clearSlots` preserves clock-consistency. -/
theorem clearSlots_inv {pos : Bool} {t : Int} {s : TrackerState} {idv : Nat}
    (h : StInv pos t s) : StInv pos t (clearSlots s idv) :=
  ⟨fun k hk => h.1 k (clearSlots_activeKeystroke hk),
   fun a ha => h.2 a (clearSlots_activeTurn ha)⟩

/-- A non-finalizing `fireActive` leaves the interaction unchanged except for
possibly dropping the spent no-output timer. -/
theorem fireActive_none {it it' : ActiveInteraction} {now : Int}
    (h : fireActive it now = (none, it')) :
    it' = it ∨ it' = { it with noOutputTimeout := none } := by
  unfold fireActive at h
  split_ifs at h
  · exact absurd h (by simp)
  · simp only [Prod.mk.injEq, true_and] at h
    exact .inr h.symm
  · exact absurd h (by simp)
  · simp only [Prod.mk.injEq, true_and] at h
    exact .inl h.symm

/-- The keystroke-slot sweep preserves clock-consistency. -/
theorem fireKeystrokeSlot_inv {pos : Bool} {t : Int} {s : TrackerState} {now : Int}
    (h : StInv pos t s) : StInv pos t (fireKeystrokeSlot s now).1 := by
  unfold fireKeystrokeSlot
  rcases hk : s.activeKeystroke with _ | k <;> dsimp only
  · exact h
  · rcases fireActive_cases k now with ⟨k', hfk⟩ | ⟨hfk, h1⟩ | hfk <;> rw [hfk] <;> dsimp only
    · constructor
      · intro x hx
        dsimp at hx
        rw [Option.some.injEq] at hx
        subst hx
        rcases fireActive_none hfk with rfl | rfl
        · exact h.1 _ hk
        · exact h.1 k hk
      · intro x hx
        exact h.2 x hx
    · exact clearSlots_inv h
    · exact clearSlots_inv h

/-- The turn-slot sweep never invents a keystroke slot. -/
theorem fireTurnSlot_activeKeystroke {s : TrackerState} {n : Int} {k : ActiveInteraction}
    (h : (fireTurnSlot s n).1.activeKeystroke = some k) : s.activeKeystroke = some k := by
  unfold fireTurnSlot at h
  rcases ha : s.activeTurn with _ | a <;> rw [ha] at h <;> dsimp only at h
  · exact h
  · rcases fireActive_cases a n with ⟨a', hfa⟩ | ⟨hfa, h1⟩ | hfa <;> rw [hfa] at h <;>
      dsimp only at h
    · exact h
    · exact clearSlots_activeKeystroke (by simpa [finalize] using h)
    · exact clearSlots_activeKeystroke (by simpa [finalize] using h)

/-- The turn-slot sweep preserves clock-consistency. -/
theorem fireTurnSlot_inv {pos : Bool} {t : Int} {s : TrackerState} {now : Int}
    (h : StInv pos t s) : StInv pos t (fireTurnSlot s now).1 := by
  unfold fireTurnSlot
  rcases ha : s.activeTurn with _ | a <;> dsimp only
  · exact h
  · rcases fireActive_cases a now with ⟨a', hfa⟩ | ⟨hfa, h1⟩ | hfa <;> rw [hfa] <;> dsimp only
    · constructor
      · intro x hx
        exact h.1 x hx
      · intro x hx
        dsimp at hx
        rw [Option.some.injEq] at hx
        subst hx
        rcases fireActive_none hfa with rfl | rfl
        · exact h.2 _ ha
        · exact h.2 a ha
    · exact clearSlots_inv h
    · exact clearSlots_inv h

/-- The timer sweep preserves clock-consistency. -/
theorem fireTimers_inv {pos : Bool} {t : Int} {s : TrackerState} {now : Int}
    (h : StInv pos t s) : StInv pos t (fireTimers s now).1 := by
  unfold fireTimers
  dsimp only
  exact fireTurnSlot_inv (fireKeystrokeSlot_inv h)

/-- `ensureKeystroke` preserves clock-consistency (a freshly started keystroke
interaction is consistent at its start time). -/
theorem ensureKeystroke_inv {pos : Bool} {o : TrackerOptions} {t : Int}
    {s : TrackerState} {now : Int} (h : StInv pos t s) (ht : t ≤ now) :
    StInv pos now (ensureKeystroke o s now) := by
  unfold ensureKeystroke
  rcases hk : s.activeKeystroke with _ | k <;> dsimp only [startInteraction]
  · constructor
    · intro x hx
      dsimp at hx
      rw [Option.some.injEq] at hx
      subst hx
      exact ⟨le_refl _, by simp, by simp, by simp, by simp, by simp⟩
    · intro x hx
      dsimp at hx
      exact ActInv_mono (h.2 x hx) ht
  · exact StInv_mono h ht

/-- `addKeystrokeBytes` preserves clock-consistency (it only touches
`inputBytes`). -/
theorem addKeystrokeBytes_inv {pos : Bool} {t : Int} {s : TrackerState} {b : Nat}
    (h : StInv pos t s) : StInv pos t (addKeystrokeBytes s b) := by
  constructor
  · intro x hx
    unfold addKeystrokeBytes at hx
    dsimp at hx
    rw [Option.map_eq_some'] at hx
    obtain ⟨k, hk, rfl⟩ := hx
    exact h.1 k hk
  · intro x hx
    exact h.2 x hx

/-- `addTurnBytes` preserves clock-consistency. -/
theorem addTurnBytes_inv {pos : Bool} {t : Int} {s : TrackerState} {b : Nat}
    (h : StInv pos t s) : StInv pos t (addTurnBytes s b) := by
  constructor
  · intro x hx
    exact h.1 x hx
  · intro x hx
    unfold addTurnBytes at hx
    dsimp at hx
    rw [Option.map_eq_some'] at hx
    obtain ⟨a, ha, rfl⟩ := hx
    exact h.2 a ha

/-- `beginTurn` never invents a keystroke slot. -/
theorem beginTurn_activeKeystroke {o : TrackerOptions} {s : TrackerState}
    {src : TurnDetectionMode} {now : Int} {x : ActiveInteraction}
    (h : (beginTurn o s src now).1.activeKeystroke = some x) :
    s.activeKeystroke = some x := by
  unfold beginTurn at h
  dsimp only [startInteraction] at h
  rcases ha : s.activeTurn with _ | it <;> rw [ha] at h <;> dsimp only at h
  · exact h
  · exact clearSlots_activeKeystroke (by simpa [finalize] using h)

/-- After `beginTurn`, the active turn interaction is freshly started at `now`. -/
theorem beginTurn_activeTurn_fresh {o : TrackerOptions} {s : TrackerState}
    {src : TurnDetectionMode} {now : Int} {x : ActiveInteraction}
    (h : (beginTurn o s src now).1.activeTurn = some x) :
    x.t0Ms = now ∧ x.firstOutputAtMs = none ∧ x.lastOutputAtMs = none ∧
      x.outputBytes = 0 := by
  unfold beginTurn at h
  dsimp only [startInteraction] at h
  rcases ha : s.activeTurn with _ | it <;> rw [ha] at h <;> dsimp only at h <;>
    (rw [Option.some.injEq] at h; subst h; exact ⟨rfl, rfl, rfl, rfl⟩)

/-- `beginTurn` preserves clock-consistency and emits only latency-ordered
records. -/
theorem beginTurn_inv {pos : Bool} {o : TrackerOptions} {t : Int} {s : TrackerState}
    {src : TurnDetectionMode} {now : Int} (h : StInv pos t s) (ht : t ≤ now) :
    StInv pos now (beginTurn o s src now).1 ∧
      ∀ i, Emit.interaction i ∈ (beginTurn o s src now).2 → LatencyOrdered pos i := by
  constructor
  · constructor
    · intro x hx
      exact ActInv_mono (h.1 x (beginTurn_activeKeystroke hx)) ht
    · intro x hx
      obtain ⟨h0, h1, h2, h3⟩ := beginTurn_activeTurn_fresh hx
      exact ⟨le_of_eq h0, by simp [h1], by simp [h2], by simp [h1], by simp [h1, h2],
        by simp [h1, h3]⟩
  · intro i hi
    obtain ⟨it, hit, rfl⟩ := beginTurn_emits hi
    exact finalizeRecord_ordered (ActInv_mono (h.2 it hit) ht) _

/-- `handleInput` preserves clock-consistency and emits only latency-ordered
records. -/
theorem handleInput_inv {pos : Bool} {o : TrackerOptions} {s : TrackerState}
    {d : String} {b : Nat} {n t : Int} (h : StInv pos t s) (ht : t ≤ n) :
    StInv pos n (handleInput o s d b n).1 ∧
      ∀ i, Emit.interaction i ∈ (handleInput o s d b n).2 → LatencyOrdered pos i := by
  have hS : StInv pos n (addKeystrokeBytes (ensureKeystroke o s n) b) :=
    addKeystrokeBytes_inv (ensureKeystroke_inv h ht)
  unfold handleInput
  by_cases hc : o.turnDetection = TurnDetectionMode.enter ∧ bufferContainsEnter d = true
  · rw [if_pos hc]
    dsimp only
    obtain ⟨hbt1, hbt2⟩ := beginTurn_inv hS (le_refl n)
    exact ⟨addTurnBytes_inv hbt1, hbt2⟩
  · rw [if_neg hc]
    dsimp only
    exact ⟨addTurnBytes_inv hS, by simp⟩

/-- `handleOutput` preserves clock-consistency when the clock is monotone; the
byte-positivity conjunct is kept when the event carries at least one byte. -/
theorem handleOutput_inv {pos : Bool} {o : TrackerOptions} {s : TrackerState}
    {b : Nat} {n t : Int} (h : StInv pos t s) (ht : t ≤ n) (hb : pos = true → 0 < b) :
    StInv pos n (handleOutput o s b n).1 := by
  unfold handleOutput
  dsimp only
  constructor
  · intro x hx
    dsimp at hx
    rw [Option.map_eq_some'] at hx
    obtain ⟨k, hk, rfl⟩ := hx
    exact observeOutput_inv (h.1 k hk) ht hb
  · intro x hx
    dsimp at hx
    rw [Option.map_eq_some'] at hx
    obtain ⟨a, ha, rfl⟩ := hx
    exact observeOutput_inv (h.2 a ha) ht hb

/-- After `endSession` both slots are empty. -/
theorem endSession_state (s : TrackerState) :
    (endSession s).1.activeKeystroke = none ∧ (endSession s).1.activeTurn = none := by
  unfold endSession
  dsimp only
  exact ⟨rfl, rfl⟩

/-- One step from a clock-consistent state at a time no earlier than the bound
keeps the state clock-consistent and emits only latency-ordered records. -/
theorem step_inv {pos : Bool} {o : TrackerOptions} {t : Int} {s : TrackerState}
    {e : Ev} (h : StInv pos t s) (hT : ∀ n, evTime e = some n → t ≤ n)
    (hB : pos = true → evOutputPositive e = true) :
    StInv pos (newBound t e) (step o s e).1 ∧
      ∀ i, Emit.interaction i ∈ (step o s e).2 → LatencyOrdered pos i := by
  cases e with
  | input d b n => exact handleInput_inv h (hT n rfl)
  | output b n =>
    refine ⟨handleOutput_inv h (hT n rfl) (fun hq => of_decide_eq_true (hB hq)), ?_⟩
    intro i hi
    simp [step, handleOutput] at hi
  | mark src n => exact beginTurn_inv h (hT n rfl)
  | timers n =>
    refine ⟨StInv_mono (fireTimers_inv h) (hT n rfl), ?_⟩
    intro i hi
    obtain ⟨it, reason, hslot, rfl, _⟩ := fireTimers_emits hi
    rcases hslot with hs | hs
    · exact finalizeRecord_ordered (h.1 it hs) _
    · exact finalizeRecord_ordered (h.2 it hs) _
  | endSession =>
    refine ⟨⟨?_, ?_⟩, ?_⟩
    · intro x hx
      have hx' : (endSession s).1.activeKeystroke = some x := hx
      rw [(endSession_state s).1] at hx'
      exact absurd hx' (by simp)
    · intro x hx
      have hx' : (endSession s).1.activeTurn = some x := hx
      rw [(endSession_state s).2] at hx'
      exact absurd hx' (by simp)
    · intro i hi
      obtain ⟨it, hslot, rfl⟩ := endSession_emits hi
      rcases hslot with hs | hs
      · exact finalizeRecord_ordered (h.1 it hs) _
      · exact finalizeRecord_ordered (h.2 it hs) _

/-- Destructuring `timesMono` along a cons. -/
theorem timesMono_cons {t : Int} {e : Ev} {rest : List Ev}
    (h : timesMono t (e :: rest) = true) :
    (∀ n, evTime e = some n → t ≤ n) ∧ timesMono (newBound t e) rest = true := by
  unfold timesMono at h
  rcases he : evTime e with _ | n <;> rw [he] at h
  · exact ⟨fun n hn => by simp [he] at hn, by simpa [newBound, he] using h⟩
  · rw [Bool.and_eq_true] at h
    refine ⟨?_, by simpa [newBound, he] using h.2⟩
    intro n' hn'
    rw [Option.some.injEq] at hn'
    subst hn'
    exact of_decide_eq_true h.1

/-- Along any run with a monotone clock, every finalized record is
latency-ordered; the byte-positivity conjunct is kept when every output
event of the trace delivers at least one byte. -/
theorem runFrom_ordered (o : TrackerOptions) (pos : Bool) :
    ∀ (tr : List Ev) (t : Int) (s : TrackerState), StInv pos t s →
      timesMono t tr = true → (pos = true → outputsPositive tr = true) →
      ∀ i, Emit.interaction i ∈ (runFrom o s tr).2 → LatencyOrdered pos i := by
  intro tr
  induction tr with
  | nil =>
    intro t s _ _ _ i hi
    simp [runFrom] at hi
  | cons e rest ih =>
    intro t s hs hm hp i hi
    have hmc := timesMono_cons hm
    have hpc : pos = true → evOutputPositive e = true ∧ outputsPositive rest = true := by
      intro hq
      simpa [outputsPositive] using hp hq
    obtain ⟨hstep, hemits⟩ := step_inv hs hmc.1 (fun hq => (hpc hq).1)
    simp only [runFrom, List.mem_append] at hi
    rcases hi with hi | hi
    · exact hemits i hi
    · exact ih (newBound t e) (step o s e).1 hstep hmc.2 (fun hq => (hpc hq).2) i hi

/-- C6 (amended): Latency ordering.  Assuming the supplied clock reading is
monotonically non-decreasing along the trace, every emitted `Interaction` has
`t1Ms` present iff `t2Ms` is present and both satisfy `0 ≤ t1Ms ≤ t2Ms` when
present; provided additionally that every output event of the trace delivers
at least one byte, they are present iff at least one output byte was counted
into the interaction (`0 < outputBytes`).  (Without that proviso a zero-byte
output event makes `t1Ms` present with `outputBytes = 0`; see the
counterexample.) -/
theorem tracker_latency_ordering (o : TrackerOptions) (t : Int) (tr : List Ev)
    (hm : timesMono t tr = true)
    (i : Interaction) (hi : Emit.interaction i ∈ runEmits o tr) :
    (i.t1Ms.isSome ↔ i.t2Ms.isSome) ∧
      (∀ a b, i.t1Ms = some a → i.t2Ms = some b → 0 ≤ a ∧ a ≤ b) ∧
      (outputsPositive tr = true → (i.t1Ms.isSome ↔ 0 < i.outputBytes)) :=
  runFrom_ordered o (outputsPositive tr) tr t initState
    ⟨fun k hk => by simp [initState] at hk, fun a ha => by simp [initState] at ha⟩
    hm (fun hq => hq) i hi

/-- C6 counterexample: with a monotone clock, a zero-byte output event makes
the tracker emit an interaction whose `t1Ms` and `t2Ms` are present although
no output byte was observed (`outputBytes = 0`), refuting "`t1Ms`/`t2Ms`
present iff at least one output byte was observed". -/
theorem tracker_t1_present_without_output_bytes :
    timesMono 0 trZeroOutput = true ∧
      Emit.interaction zeroOutputRec ∈ runEmits defaultOpts trZeroOutput ∧
      zeroOutputRec.t1Ms.isSome = true ∧ zeroOutputRec.outputBytes = 0 := by
  decide

/-- C6 witness: the latency-ordering theorem applied to a concrete monotone
trace. -/
theorem tracker_latency_ordering_witness :
    timesMono 0 trLatency = true ∧
      Emit.interaction latencyRec ∈ runEmits defaultOpts trLatency ∧
      ((latencyRec.t1Ms.isSome ↔ latencyRec.t2Ms.isSome) ∧
        (∀ a b, latencyRec.t1Ms = some a → latencyRec.t2Ms = some b → 0 ≤ a ∧ a ≤ b) ∧
        (outputsPositive trLatency = true →
          (latencyRec.t1Ms.isSome ↔ 0 < latencyRec.outputBytes))) :=
  ⟨by decide, by decide,
    tracker_latency_ordering defaultOpts 0 trLatency (by decide)
      latencyRec (by decide)⟩

/-- `beginTurn` leaves the keystroke slot untouched provided the finalized
prior turn interaction does not share the keystroke interaction's id. -/
theorem beginTurn_activeKeystroke_eq {o : TrackerOptions} {s : TrackerState}
    {src : TurnDetectionMode} {now : Int}
    (hne : ∀ a k, s.activeTurn = some a → s.activeKeystroke = some k → a.id ≠ k.id) :
    (beginTurn o s src now).1.activeKeystroke = s.activeKeystroke := by
  unfold beginTurn
  dsimp only [startInteraction]
  rcases ha : s.activeTurn with _ | a <;> dsimp only
  unfold finalize clearSlots
  dsimp only
  rcases hk : s.activeKeystroke with _ | k <;> dsimp only
  rw [if_neg fun heq => hne a k ha hk heq.symm]

/-- After `handleInput` on a state with no active keystroke interaction, the
keystroke slot holds a freshly started interaction with the no-output timer
armed (provided no stale turn interaction shares its id). -/
theorem handleInput_activeKeystroke_fresh (o : TrackerOptions) (s : TrackerState)
    (d : String) (b : Nat) (now : Int) (h1 : s.activeKeystroke = none)
    (h2 : ∀ a, s.activeTurn = some a → a.id ≠ s.nextId) :
    (handleInput o s d b now).1.activeKeystroke =
      some { id := s.nextId, kind := .keystroke, t0Ms := now, inputBytes := 0 + b,
             outputBytes := 0,
             noOutputTimeout := some (now + o.interactionTimeoutMs) } := by
  have hfresh : (addKeystrokeBytes (ensureKeystroke o s now) b).activeKeystroke =
      some { id := s.nextId, kind := .keystroke, t0Ms := now, inputBytes := 0 + b,
             outputBytes := 0,
             noOutputTimeout := some (now + o.interactionTimeoutMs) } := by
    unfold addKeystrokeBytes ensureKeystroke startInteraction
    rw [h1]
    rfl
  unfold handleInput
  by_cases hc : o.turnDetection = TurnDetectionMode.enter ∧ bufferContainsEnter d = true
  · rw [if_pos hc]
    dsimp only
    rw [addTurnBytes_activeKeystroke, beginTurn_activeKeystroke_eq, hfresh]
    intro a k ha hk
    rw [addKeystrokeBytes_activeTurn, ensureKeystroke_activeTurn] at ha
    rw [hfresh, Option.some.injEq] at hk
    subst hk
    exact h2 a ha
  · rw [if_neg hc]
    dsimp only
    rw [addTurnBytes_activeKeystroke, hfresh]

/-- When the keystroke slot holds an interaction whose armed no-output timer is
due and which never observed output, the timer sweep finalizes it with
`timeout`. -/
theorem fireTimers_keystroke_timeout {s : TrackerState} {k : ActiveInteraction}
    {now dl : Int} (hk : s.activeKeystroke = some k) (hdl : k.noOutputTimeout = some dl)
    (hle : dl ≤ now) (hf : k.firstOutputAtMs = none) :
    Emit.interaction (finalizeRecord k .timeout) ∈ (fireTimers s now).2 := by
  have hfa : fireActive k now = (some .timeout, k) := by
    unfold fireActive
    rw [if_pos (show timerDue k.noOutputTimeout now = true by
      unfold timerDue
      rw [hdl]
      exact decide_eq_true hle)]
    rw [if_pos hf]
  unfold fireTimers
  dsimp only
  rw [List.mem_append]
  left
  unfold fireKeystrokeSlot
  rw [hk]
  dsimp only
  rw [hfa]
  simp [finalize]

/-- C10: Keystroke interactions are governed by the no-output timer.  Any
input event on a state with no active keystroke interaction starts one whose
no-output timer is armed for `interactionTimeoutMs` after `now`; if no output
is observed by the time that timer fires, the keystroke interaction is
finalized with end reason `timeout`.  (The id-freshness hypothesis rules out a
stale turn interaction sharing the new interaction's id; it holds in every
reachable state.) -/
theorem keystroke_no_output_timeout (o : TrackerOptions) (s : TrackerState)
    (d : String) (b : Nat) (now : Int) (h1 : s.activeKeystroke = none)
    (h2 : ∀ a, s.activeTurn = some a → a.id ≠ s.nextId) :
    Emit.interaction
        { id := s.nextId, kind := .keystroke, t0Ms := now, t1Ms := none, t2Ms := none,
          inputBytes := 0 + b, outputBytes := 0, turnIndex := none, endReason := .timeout }
      ∈ (fireTimers (handleInput o s d b now).1 (now + o.interactionTimeoutMs)).2 := by
  have hk := handleInput_activeKeystroke_fresh o s d b now h1 h2
  have hmem := fireTimers_keystroke_timeout hk rfl (le_refl _) rfl
  simpa [finalizeRecord] using hmem

/-- C10 witness: from the freshly constructed tracker, one input byte with no
subsequent output leads the timer sweep at `interactionTimeoutMs` to emit a
`timeout`-finalized keystroke interaction. -/
theorem keystroke_no_output_timeout_witness :
    initState.activeKeystroke = none ∧
      (∀ a, initState.activeTurn = some a → a.id ≠ initState.nextId) ∧
      Emit.interaction keystrokeTimeoutRec
        ∈ (fireTimers (handleInput defaultOpts initState "a" 1 0).1
            (0 + defaultOpts.interactionTimeoutMs)).2 :=
  ⟨rfl, fun a ha => by simp [initState] at ha,
    keystroke_no_output_timeout defaultOpts initState "a" 1 0 rfl
      (fun a ha => by simp [initState] at ha)⟩

/-- C3 counterexample: with plaintext-label storage enabled (the
`--unsafe-plaintext-label` flag of the `mark` subcommand), `appendMarker`
stores BOTH the plaintext label and its hash on the same record, refuting
"exactly one of the two label forms, never both, for every call including
when plaintext-label storage is enabled". -/
theorem marker_both_label_forms_with_plaintext :
    (appendMarkerRecord (fun _ => "deadbeef") "2026-01-01T00:00:00.000Z" none
        (some "x") true).label = some "x" ∧
      (appendMarkerRecord (fun _ => "deadbeef") "2026-01-01T00:00:00.000Z" none
        (some "x") true).labelSha256 = some "deadbeef" := by
  decide

/-- C3 (amended): every marker record with an annotation carries
`labelSha256`; the plaintext `label` is additionally present exactly when
plaintext-label storage is enabled.  Hence exactly one label form (the hash)
is present by default, and both forms are present exactly when the unsafe
plaintext mode is opted in. -/
theorem appendMarker_label_forms (sha : String → String) (tIso : String)
    (tMs : Option Int) (label : Option String) (store : Bool) :
    ((appendMarkerRecord sha tIso tMs label store).label.isSome = true →
        (appendMarkerRecord sha tIso tMs label store).labelSha256.isSome = true) ∧
      ((appendMarkerRecord sha tIso tMs label store).label.isSome = true ↔
        store = true ∧ (appendMarkerRecord sha tIso tMs label store).labelSha256.isSome = true) ∧
      (store = false →
        ¬((appendMarkerRecord sha tIso tMs label store).label.isSome = true ∧
          (appendMarkerRecord sha tIso tMs label store).labelSha256.isSome = true)) := by
  unfold appendMarkerRecord
  rcases label with _ | l
  · simp
  · simp only [Option.map_some']
    by_cases he : jsTrim l = ""
    · rw [if_neg fun hne => hne he]
      simp
    · rw [if_pos he]
      cases store <;> simp

/-- C3 witness: the amended statement at a concrete hashing function, label
and both values of the plaintext-storage flag is an instance of the
theorem. -/
theorem appendMarker_label_forms_witness :
    (((appendMarkerRecord (fun _ => "deadbeef") "2026-01-01T00:00:00.000Z" none
          (some "x") true).label.isSome = true →
        (appendMarkerRecord (fun _ => "deadbeef") "2026-01-01T00:00:00.000Z" none
          (some "x") true).labelSha256.isSome = true) ∧
      ((appendMarkerRecord (fun _ => "deadbeef") "2026-01-01T00:00:00.000Z" none
          (some "x") true).label.isSome = true ↔
        true = true ∧ (appendMarkerRecord (fun _ => "deadbeef") "2026-01-01T00:00:00.000Z"
          none (some "x") true).labelSha256.isSome = true) ∧
      (true = false →
        ¬((appendMarkerRecord (fun _ => "deadbeef") "2026-01-01T00:00:00.000Z" none
            (some "x") true).label.isSome = true ∧
          (appendMarkerRecord (fun _ => "deadbeef") "2026-01-01T00:00:00.000Z" none
            (some "x") true).labelSha256.isSome = true))) :=
  appendMarker_label_forms (fun _ => "deadbeef") "2026-01-01T00:00:00.000Z" none
    (some "x") true

/-- One `pickBetter` step keeps a candidate that dominates both arguments. -/
theorem pickBetter_some (b c : JsonlCandidate) :
    ∃ r, pickBetter (some b) c = some r ∧ (r = b ∨ r = c) ∧
      b.sizeBytes ≤ r.sizeBytes ∧ c.sizeBytes ≤ r.sizeBytes ∧
      (b.sizeBytes = r.sizeBytes → b.mtimeMs ≤ r.mtimeMs) ∧
      (c.sizeBytes = r.sizeBytes → c.mtimeMs ≤ r.mtimeMs) := by
  unfold pickBetter
  dsimp only
  split_ifs with h1 h2
  · exact ⟨c, rfl, .inr rfl, by omega, le_refl _, fun hx => by omega, fun _ => le_refl _⟩
  · obtain ⟨hs, hm⟩ := h2
    exact ⟨c, rfl, .inr rfl, by omega, le_refl _, fun _ => by omega, fun _ => le_refl _⟩
  · refine ⟨b, rfl, .inl rfl, le_refl _, by omega, fun _ => le_refl _, fun hx => ?_⟩
    have hnm := not_and.mp h2 hx
    omega

/-- The selection fold keeps a candidate that dominates the accumulator and
every scanned candidate. -/
theorem foldl_pickBetter (l : List JsonlCandidate) :
    ∀ b : JsonlCandidate,
      ∃ c, l.foldl pickBetter (some b) = some c ∧ (c = b ∨ c ∈ l) ∧
        b.sizeBytes ≤ c.sizeBytes ∧ (b.sizeBytes = c.sizeBytes → b.mtimeMs ≤ c.mtimeMs) ∧
        (∀ d ∈ l, d.sizeBytes ≤ c.sizeBytes) ∧
        (∀ d ∈ l, d.sizeBytes = c.sizeBytes → d.mtimeMs ≤ c.mtimeMs) := by
  induction l with
  | nil =>
    intro b
    exact ⟨b, rfl, .inl rfl, le_refl _, fun _ => le_refl _, by simp, by simp⟩
  | cons c' rest ih =>
    intro b
    obtain ⟨r, hr, hro, hbr, hcr, hbm, hcm⟩ := pickBetter_some b c'
    obtain ⟨c, hc, hco, hrc, hrm, hall, hallm⟩ := ih r
    refine ⟨c, ?_, ?_, by omega, ?_, ?_, ?_⟩
    · rw [List.foldl_cons, hr]
      exact hc
    · rcases hco with rfl | hmem
      · rcases hro with rfl | rfl
        · exact .inl rfl
        · exact .inr (List.mem_cons_self _ _)
      · exact .inr (List.mem_cons_of_mem _ hmem)
    · intro hbe
      have h1 := hbm (by omega)
      have h2 := hrm (by omega)
      omega
    · intro d hd
      rcases List.mem_cons.mp hd with rfl | hmem
      · omega
      · exact hall d hmem
    · intro d hd hde
      rcases List.mem_cons.mp hd with rfl | hmem
      · have h1 := hcm (by omega)
        have h2 := hrm (by omega)
        omega
      · exact hallm d hmem hde

/-- C8: No-read selection policy.  For every non-empty candidate list,
`pickLargestCandidate` (used by `ensureActivePath` when
`allowReadForSelection` is false) returns a candidate of the list with the
greatest `sizeBytes`, with size ties broken by the more recent `mtimeMs`;
in particular, between two candidates of different sizes it returns the
larger one regardless of order. -/
theorem noread_selection_policy :
    (∀ l : List JsonlCandidate, l ≠ [] →
        ∃ c, pickLargestCandidate l = some c ∧ c ∈ l ∧
          (∀ d ∈ l, d.sizeBytes ≤ c.sizeBytes) ∧
          (∀ d ∈ l, d.sizeBytes = c.sizeBytes → d.mtimeMs ≤ c.mtimeMs)) ∧
      ∀ a b : JsonlCandidate, b.sizeBytes < a.sizeBytes →
        pickLargestCandidate [a, b] = some a ∧ pickLargestCandidate [b, a] = some a := by
  constructor
  · intro l hne
    rcases l with _ | ⟨c0, rest⟩
    · exact absurd rfl hne
    · obtain ⟨c, hc, hco, hbs, hbm, hall, hallm⟩ := foldl_pickBetter rest c0
      refine ⟨c, ?_, ?_, ?_, ?_⟩
      · unfold pickLargestCandidate
        rw [List.foldl_cons]
        exact hc
      · rcases hco with rfl | hmem
        · exact List.mem_cons_self _ _
        · exact List.mem_cons_of_mem _ hmem
      · intro d hd
        rcases List.mem_cons.mp hd with rfl | hmem
        · exact hbs
        · exact hall d hmem
      · intro d hd hde
        rcases List.mem_cons.mp hd with rfl | hmem
        · exact hbm hde
        · exact hallm d hmem hde
  · intro a b hab
    constructor
    · unfold pickLargestCandidate pickBetter
      simp only [List.foldl_cons, List.foldl_nil]
      rw [if_neg (by omega), if_neg (by rintro ⟨hs, _⟩; omega)]
    · unfold pickLargestCandidate pickBetter
      simp only [List.foldl_cons, List.foldl_nil]
      rw [if_pos hab]

/-- C8 witness: the policy applied to a concrete two-candidate list — a
larger, older `conversation.jsonl` beats a smaller, newer `snapshot.jsonl`. -/
theorem noread_selection_policy_witness :
    (([⟨"conversation.jsonl", 100, 5000⟩, ⟨"snapshot.jsonl", 200, 40⟩] :
        List JsonlCandidate) ≠ [] ∧
      pickLargestCandidate [⟨"conversation.jsonl", 100, 5000⟩, ⟨"snapshot.jsonl", 200, 40⟩] =
        some ⟨"conversation.jsonl", 100, 5000⟩) ∧
      ((40 : Int) < 5000 ∧
        pickLargestCandidate [⟨"snapshot.jsonl", 200, 40⟩, ⟨"conversation.jsonl", 100, 5000⟩] =
          some ⟨"conversation.jsonl", 100, 5000⟩) :=
  ⟨⟨by decide,
      ((noread_selection_policy.2 ⟨"conversation.jsonl", 100, 5000⟩
        ⟨"snapshot.jsonl", 200, 40⟩ (by decide)).1)⟩,
    ⟨by decide,
      ((noread_selection_policy.2 ⟨"conversation.jsonl", 100, 5000⟩
        ⟨"snapshot.jsonl", 200, 40⟩ (by decide)).2)⟩⟩

/-- C2 (code evaluation): for every `RunSessionOptions` value and every state
of the `JsonlTracker`, the `jsonl` field that `finalize` writes into the
session data document carries no `correlation` — `runSession`'s finalize
never invokes `correlateJsonlToTurns`, even though the CLI threads a
`--correlate-jsonl` flag to it and the schema declares the field. -/
theorem finalize_correlation_none (opts : RunSessionOptions)
    (tracker : JsonlTrackerView) :
    (finalizeJsonlTracking opts tracker).correlation = none :=
  rfl

/-- On a record with no extractable timestamp, `correlStep` reduces to the
sequential-mode logic: counters bumped, the pointer advanced on a user role,
and the record applied through `applyAtTurn` when the pointer is in range. -/
theorem correlStep_seq (turns : List TurnEvent) (start : Int) (ended : Option Int)
    (s : CorrelState) (l : JLine) (rec : JRec) (hl : l.parsed = some rec)
    (hts : rec.epochMs = none) (hrun : s.stopped = false) :
    correlStep turns start ended s l =
      (let s1 : CorrelState :=
        { s with parsedLines := s.parsedLines + 1
                 parsedBytes := s.parsedBytes + l.byteLen }
       let s2 : CorrelState :=
        if rec.role = some JRole.user then
          { s1 with usedSequential := true, seqPtr := s1.seqPtr + 1 }
        else s1
       if rec.role = some JRole.user ∧ (turns.length : Int) ≤ s2.seqPtr then s2
       else if 0 ≤ s2.seqPtr ∧ s2.seqPtr < (turns.length : Int) then
         { s2 with buckets := applyAtTurn turns s2.seqPtr.toNat s2.buckets l.byteLen rec }
       else s2) := by
  unfold correlStep
  rw [if_neg (by simp [hrun]), hl]
  dsimp only
  rw [hts]

/-- C9: Correlator sequential mode.  For a record with no extractable
timestamp, processed from an unstopped state whose sequential pointer is at
least its initial value `-1`:
the initial pointer is `-1`;
a user-role record advances the pointer by one (so the first user record is
applied to the first turn of the turn list), is applied to the
newly-pointed turn while in range, and is dropped once it advances to or
past the end;
a non-user record leaves the pointer unchanged and is applied to the
currently-pointed turn exactly when the pointer is within bounds;
and once the pointer is at or past the last turn, the record changes no
bucket and the pointer stays past the end. -/
theorem correlator_sequential_mode (turns : List TurnEvent) (start : Int)
    (ended : Option Int) (s : CorrelState) (l : JLine) (rec : JRec)
    (hl : l.parsed = some rec) (hts : rec.epochMs = none) (hrun : s.stopped = false)
    (hge : -1 ≤ s.seqPtr) :
    (correlInit turns).seqPtr = -1 ∧
      (rec.role = some JRole.user →
        (correlStep turns start ended s l).seqPtr = s.seqPtr + 1 ∧
          (s.seqPtr + 1 < (turns.length : Int) →
            (correlStep turns start ended s l).buckets =
              applyAtTurn turns (s.seqPtr + 1).toNat s.buckets l.byteLen rec) ∧
          ((turns.length : Int) ≤ s.seqPtr + 1 →
            (correlStep turns start ended s l).buckets = s.buckets)) ∧
      (rec.role ≠ some JRole.user →
        (correlStep turns start ended s l).seqPtr = s.seqPtr ∧
          (0 ≤ s.seqPtr → s.seqPtr < (turns.length : Int) →
            (correlStep turns start ended s l).buckets =
              applyAtTurn turns s.seqPtr.toNat s.buckets l.byteLen rec) ∧
          (s.seqPtr < 0 ∨ (turns.length : Int) ≤ s.seqPtr →
            (correlStep turns start ended s l).buckets = s.buckets)) ∧
      ((turns.length : Int) ≤ s.seqPtr →
        (correlStep turns start ended s l).buckets = s.buckets ∧
          (turns.length : Int) ≤ (correlStep turns start ended s l).seqPtr) := by
  rw [correlStep_seq turns start ended s l rec hl hts hrun]
  dsimp only
  refine ⟨rfl, ?_, ?_, ?_⟩
  · intro hrole
    rw [if_pos hrole]
    dsimp only
    by_cases hlen : (turns.length : Int) ≤ s.seqPtr + 1
    · rw [if_pos ⟨hrole, hlen⟩]
      exact ⟨rfl, fun hlt => absurd hlt (by omega), fun _ => rfl⟩
    · rw [if_neg fun hx => hlen hx.2, if_pos ⟨by omega, by omega⟩]
      exact ⟨rfl, fun _ => rfl, fun hx => absurd hx hlen⟩
  · intro hrole
    rw [if_neg hrole]
    dsimp only
    rw [if_neg fun hx => hrole hx.1]
    by_cases hin : 0 ≤ s.seqPtr ∧ s.seqPtr < (turns.length : Int)
    · rw [if_pos hin]
      refine ⟨rfl, fun _ _ => rfl, fun hx => ?_⟩
      obtain ⟨h1, h2⟩ := hin
      exact False.elim (by rcases hx with hx | hx <;> omega)
    · rw [if_neg hin]
      exact ⟨rfl, fun h1 h2 => absurd ⟨h1, h2⟩ hin, fun _ => rfl⟩
  · intro hend
    by_cases hrole : rec.role = some JRole.user
    · rw [if_pos hrole]
      dsimp only
      rw [if_pos ⟨hrole, show (turns.length : Int) ≤ s.seqPtr + 1 by omega⟩]
      exact ⟨rfl, show (turns.length : Int) ≤ s.seqPtr + 1 by omega⟩
    · rw [if_neg hrole]
      dsimp only
      rw [if_neg fun hx => hrole hx.1,
        if_neg fun hx => by
          have h1 : (0 : Int) ≤ s.seqPtr := hx.1
          have h2 : s.seqPtr < (turns.length : Int) := hx.2
          omega]
      exact ⟨rfl, show (turns.length : Int) ≤ s.seqPtr by omega⟩

/-- C9 witness: from the initial state, a timestampless user record advances
the sequential pointer from `-1` to `0`. -/
theorem correlator_sequential_mode_witness :
    seqUserLine.parsed = some seqUserRec ∧ seqUserRec.epochMs = none ∧
      (correlInit seqTurns).stopped = false ∧ -1 ≤ (correlInit seqTurns).seqPtr ∧
      (correlStep seqTurns 1000 none (correlInit seqTurns) seqUserLine).seqPtr =
        (correlInit seqTurns).seqPtr + 1 :=
  ⟨rfl, rfl, rfl, by decide,
    ((correlator_sequential_mode seqTurns 1000 none (correlInit seqTurns) seqUserLine
      seqUserRec rfl rfl rfl (by decide)).2.1 rfl).1⟩

end CcProfiler
